import Mathlib

/-!
Verification development for the bundle-composition engine of
`pywebpack/project.py` (classes `WebpackTemplateProject` and
`WebpackBundleProject`).

The embedding mirrors the source:
* paths are `pathlib.PurePosixPath` values: a flag for absoluteness plus the
  list of (non-`"."`, non-empty) segments, with `..` segments kept verbatim,
  exactly as `pathlib` stores them;
* Python dictionaries are association lists in insertion order, looked up with
  `List.lookup`;
* properties that raise become `Except`-valued functions;
* the filesystem probe `Path.is_file()` used by `_get_dir_path` is an abstract
  boolean oracle passed as a parameter;
* the caller-visible mutation performed by the `config` property is made
  explicit through a small store of dictionaries indexed by references.

The helper `merge_deps` lives in `pywebpack/helpers.py`, which is not part of
the sources here; it is modelled from the spec (section 4.5) as indicated on
its definition.
-/

namespace PyWebpack

/-- A `pathlib.PurePosixPath`: absoluteness flag plus stored segments.
Parsing in `pathlib` removes empty and `"."` segments but keeps `".."`
segments verbatim; values of this type are the already-parsed form. -/
structure PPath where
  absolute : Bool
  parts : List String
deriving DecidableEq, Repr

/-- Python `PurePosixPath.joinpath`: an absolute argument replaces the base, a
relative argument appends its segments (no normalization of `..`). -/
def PPath.joinpath (base p : PPath) : PPath :=
  if p.absolute then p else ⟨base.absolute, base.parts ++ p.parts⟩

/-- Python `PurePosixPath.parent`: drop the last stored segment (the parent of the
root or of the empty relative path is itself). -/
def PPath.parent (p : PPath) : PPath :=
  ⟨p.absolute, p.parts.dropLast⟩

/-- Python `PurePosixPath.is_relative_to`: purely lexical test that `root`'s stored
segments are an initial segment of `p`'s stored segments (both must agree on
absoluteness).  No `..` normalization is performed by `pathlib` here. -/
def PPath.is_relative_to (p root : PPath) : Bool :=
  p.absolute == root.absolute && root.parts.isPrefixOf p.parts

/-- Source `WebpackBundleProject._get_dir_path`: the path itself when it is not an
existing file, else its parent.  `isFile` is the filesystem oracle standing
for `pathlib.Path.is_file()`. -/
def get_dir_path (isFile : PPath → Bool) (p : PPath) : PPath :=
  if isFile p then p.parent else p

/-- Modelled from the spec, section 4.1: normalization of a path resolves each
`..` segment against the segment before it (left to right, with a stack). -/
def specNormalizeAux (stack : List String) : List String → List String
  | [] => stack.reverse
  | s :: rest =>
    if s == ".." then specNormalizeAux stack.tail rest
    else specNormalizeAux (s :: stack) rest

/-- Modelled from the spec, section 4.1: `isContainedIn` on normalized
segments — true iff the normalized root segments are a prefix of the
normalized path segments. -/
def specIsContainedIn (p root : PPath) : Bool :=
  p.absolute == root.absolute &&
    (specNormalizeAux [] root.parts).isPrefixOf (specNormalizeAux [] p.parts)

/-- A copy instruction as the source sees it: a Python dictionary whose keys
are strings and whose values are paths (`{"from": ..., "to": ...}` when well
formed, but arbitrary key sets arrive from bundles). -/
abbrev CopyInstr := List (String × PPath)

/-- A bundle's dependency manifest: the three dependency classes, each a
dictionary from package name to version-range string (`deps.get(key, {})`
yields the empty dictionary for a class the bundle does not declare). -/
structure Deps where
  dependencies : List (String × String)
  devDependencies : List (String × String)
  peerDependencies : List (String × String)
deriving DecidableEq, Repr

/-- A bundle: filesystem path identity plus its contributions, mirroring the
attributes `project.py` reads from `pywebpack.bundle.WebpackBundle`. -/
structure Bundle where
  path : String
  entry : List (String × String)
  aliases : List (String × String)
  copy : List CopyInstr
  dependencies : Deps
deriving DecidableEq, Repr

/-- The `RuntimeError`s raised by `WebpackBundleProject.copy`. -/
inductive CopyError
  | invalidInstruction (instr : CopyInstr)
  | outOfBounds (instr : CopyInstr) (fromPath toPath : PPath) (allowed : List PPath)
deriving DecidableEq, Repr

/-- Source `WebpackBundleProject.allowed_copy_paths`: each configured path is kept if
absolute and otherwise joined onto the config-file path itself (note: onto
`self.config_path`, not onto its directory part). -/
def allowed_copy_paths (config_path : PPath) (paths : List PPath) : List PPath :=
  paths.map (fun p => if p.absolute then p else config_path.joinpath p)

/-- The key-set check of `WebpackBundleProject.copy`:
`set(copy.keys()) == {"from", "to"}`. -/
def copyKeysOk (c : CopyInstr) : Bool :=
  (c.map Prod.fst).all (fun k => k == "from" || k == "to") &&
    (c.map Prod.fst).contains "from" && (c.map Prod.fst).contains "to"

/-- The body of the per-instruction validation in `WebpackBundleProject.copy`:
key-set check, resolution of `from`/`to` against the config directory, and the
`is_relative_to` sanity check against the allowed paths (skipped when the
allowed list is empty).  Returns the error raised, if any. -/
def checkCopyInstr (isFile : PPath → Bool) (base : PPath) (allowed_paths : List PPath)
    (c : CopyInstr) : Option CopyError :=
  if !copyKeysOk c then some (.invalidInstruction c)
  else
    let from_path := get_dir_path isFile (base.joinpath ((c.lookup "from").getD ⟨false, []⟩))
    let to_path := get_dir_path isFile (base.joinpath ((c.lookup "to").getD ⟨false, []⟩))
    if allowed_paths.isEmpty then none
    else
      let from_path_ok := allowed_paths.any (fun ap => from_path.is_relative_to ap)
      let to_path_ok := allowed_paths.any (fun ap => to_path.is_relative_to ap)
      if !from_path_ok || !to_path_ok then
        some (.outOfBounds c from_path to_path allowed_paths)
      else none

/-- The loop of `WebpackBundleProject.copy` over a list of instructions,
appending each validated (original, unresolved) instruction. -/
def copyInstrFold (isFile : PPath → Bool) (base : PPath) (allowed_paths : List PPath)
    (acc : List CopyInstr) (l : List CopyInstr) : Except CopyError (List CopyInstr) :=
  l.foldlM
    (fun acc c =>
      match checkCopyInstr isFile base allowed_paths c with
      | some e => .error e
      | none => .ok (acc ++ [c]))
    acc

/-- The per-bundle instruction loop of `WebpackBundleProject.copy`. -/
def copyBundleFold (isFile : PPath → Bool) (base : PPath) (allowed_paths : List PPath)
    (acc : List CopyInstr) (b : Bundle) : Except CopyError (List CopyInstr) :=
  copyInstrFold isFile base allowed_paths acc b.copy

/-- Source `WebpackBundleProject.copy`: validate all bundles' copy instructions in
bundle order then declaration order; `config_path` is the raw config-file
path (`self.config_path`) and `paths` the raw `allowed_copy_paths` input. -/
def copy (isFile : PPath → Bool) (config_path : PPath) (paths : List PPath)
    (bundles : List Bundle) : Except CopyError (List CopyInstr) :=
  let base := get_dir_path isFile config_path
  let allowed_paths := allowed_copy_paths config_path paths
  bundles.foldlM (copyBundleFold isFile base allowed_paths) []

/-- The `RuntimeError` raised on a duplicated entry or alias: the entry/alias
name, the previously recorded value and owning bundle path (from the `paths`
bookkeeping dictionary), and the newly contributed value and bundle path. -/
structure DupConflict where
  name : String
  prevValue : String
  prevBundle : String
  newValue : String
  newBundle : String
deriving DecidableEq, Repr

/-- The bookkeeping applied per bundle in `WebpackBundleProject.entry` (and
identically in `aliases`): raise on the first contributed name already present
in the accumulated dictionary, else record `(value, bundle path)` for each
name and extend the dictionary with the bundle's items.  The accumulator keeps
`(name, value, owning bundle path)` triples. -/
def dupCheckStep (acc : List (String × String × String)) (bpath : String)
    (items : List (String × String)) : Except DupConflict (List (String × String × String)) :=
  match items.find? (fun it => acc.any (fun q => q.1 == it.1)) with
  | some it =>
    let prev := (acc.lookup it.1).getD ("", "")
    .error ⟨it.1, prev.1, prev.2, it.2, bpath⟩
  | none => .ok (acc ++ items.map (fun it => (it.1, it.2, bpath)))

/-- The shared aggregation loop of `WebpackBundleProject.entry` and
`WebpackBundleProject.aliases`, parameterized by which per-bundle dictionary
is aggregated. -/
def dupFold (f : Bundle → List (String × String))
    (acc : List (String × String × String)) (bundles : List Bundle) :
    Except DupConflict (List (String × String × String)) :=
  bundles.foldlM (fun acc b => dupCheckStep acc b.path (f b)) acc

/-- The `(name, value, owning bundle path)` triples one bundle adds to the
aggregation accumulator. -/
def tagged (f : Bundle → List (String × String)) (b : Bundle) :
    List (String × String × String) :=
  (f b).map (fun it => (it.1, it.2, b.path))

/-- Source `WebpackBundleProject.entry`: the merged entry-point dictionary (the
`entries["entries"]` result), or the duplicate-entry error. -/
def entry (bundles : List Bundle) : Except DupConflict (List (String × String)) :=
  (dupFold Bundle.entry [] bundles).map (fun acc => acc.map (fun q => (q.1, q.2.1)))

/-- Source `WebpackBundleProject.aliases`: the merged alias dictionary, or the
duplicate-alias error. -/
def aliases (bundles : List Bundle) : Except DupConflict (List (String × String)) :=
  (dupFold Bundle.aliases [] bundles).map (fun acc => acc.map (fun q => (q.1, q.2.1)))

/-- A value stored in a `package.json`-shaped dictionary: a dependency-class
dictionary or an opaque other JSON value. -/
inductive MVal
  | depsMap (m : List (String × String))
  | other (v : String)
deriving DecidableEq, Repr

/-- A `package.json`-shaped dictionary. -/
abbrev Manifest := List (String × MVal)

/-- The `MergeConflictError` raised by the dependency merge: package name, the
version range already recorded, the newly contributed version range, and the
bundle-path annotation added (only) by `WebpackBundleProject.dependencies`. -/
structure DepConflict where
  name : String
  oldRange : String
  newRange : String
  source : Option String
deriving DecidableEq, Repr

/-- Errors of the dependency merge: a version conflict, or a dependency-class
field of the package dictionary that is not itself a dictionary. -/
inductive DepErr
  | conflict (c : DepConflict)
  | notObject (key : String)
deriving DecidableEq, Repr

/-- Modelled from the spec, section 4.5 (`merge_deps`/`_merge_deps` of
`pywebpack/helpers.py`, absent from the sources): merge one dependency-class
dictionary into an accumulated one; an absent package name is inserted, an
identical version-range string is a no-op, a differing version-range string
fails with the package name and both ranges (no source annotation here). -/
def mergeDepsClass (acc contrib : List (String × String)) :
    Except DepConflict (List (String × String)) :=
  contrib.foldlM
    (fun m p =>
      match m.lookup p.1 with
      | none => .ok (m ++ [p])
      | some r => if r == p.2 then .ok m else .error ⟨p.1, r, p.2, none⟩)
    acc

/-- Python `dict.setdefault`: append the key with the default value when it is
absent, otherwise leave the dictionary unchanged. -/
def setdefault (m : Manifest) (k : String) (v : MVal) : Manifest :=
  if (m.lookup k).isSome then m else m ++ [(k, v)]

/-- In-place update of the value at a key, keeping its position (the effect of
mutating `package[key]` in Python). -/
def updateVal (m : Manifest) (k : String) (v : MVal) : Manifest :=
  m.map (fun p => if p.1 == k then (p.1, v) else p)

/-- Modelled from the spec, section 4.5: one dependency class of `merge_deps`
— `package.setdefault(key, {})` followed by merging the contribution into
`package[key]`. -/
def merge_deps_key (pkg : Manifest) (key : String) (contrib : List (String × String)) :
    Except DepErr Manifest :=
  let pkg := setdefault pkg key (.depsMap [])
  match pkg.lookup key with
  | some (.depsMap m) =>
    match mergeDepsClass m contrib with
    | .ok m2 => .ok (updateVal pkg key (.depsMap m2))
    | .error c => .error (.conflict c)
  | _ => .error (.notObject key)

/-- Modelled from the spec, section 4.5 (`merge_deps` of
`pywebpack/helpers.py`, absent from the sources): merge a three-class
dependency manifest into a `package.json`-shaped dictionary, class by class
(`dependencies`, then `devDependencies`, then `peerDependencies`), returning
the updated dictionary. -/
def merge_deps (pkg : Manifest) (deps : Deps) : Except DepErr Manifest := do
  let p1 ← merge_deps_key pkg "dependencies" deps.dependencies
  let p2 ← merge_deps_key p1 "devDependencies" deps.devDependencies
  merge_deps_key p2 "peerDependencies" deps.peerDependencies

/-- The fresh accumulator `res` of `WebpackBundleProject.dependencies`, and
the general shape of a three-class result. -/
def mkRes (d dd pd : List (String × String)) : Manifest :=
  [("dependencies", .depsMap d), ("devDependencies", .depsMap dd),
    ("peerDependencies", .depsMap pd)]

/-- One iteration of the loop in `WebpackBundleProject.dependencies`: merge a
bundle's manifest into the accumulator, re-raising a `MergeConflictError`
annotated with the bundle's path. -/
def depStep (res : Manifest) (b : Bundle) : Except DepErr Manifest :=
  match merge_deps res b.dependencies with
  | .ok r => .ok r
  | .error (.conflict c) => .error (.conflict { c with source := some b.path })
  | .error e => .error e

/-- Source `WebpackBundleProject.dependencies`: fold the bundles' manifests into the
fresh accumulator; a `MergeConflictError` escaping `merge_deps` for a bundle
is re-raised annotated with that bundle's path. -/
def dependencies (bundles : List Bundle) : Except DepErr Manifest :=
  bundles.foldlM depStep (mkRes [] [] [])

/-- The dependency-class dictionary stored under a key of a
`package.json`-shaped dictionary (empty when absent or not a dictionary). -/
def baseClass (m : Manifest) (k : String) : List (String × String) :=
  match m.lookup k with
  | some (.depsMap d) => d
  | _ => []

/-- Read the three class dictionaries out of a three-class result, the way
`merge_deps` reads its second argument via `deps.get(key, {})`. -/
def toDeps (m : Manifest) : Deps :=
  ⟨baseClass m "dependencies", baseClass m "devDependencies",
    baseClass m "peerDependencies"⟩

/-- Source `WebpackBundleProject.package_json`: merge the accumulated bundle
dependencies into the source `package.json` dictionary (errors here propagate
without any bundle annotation). -/
def package_json (source : Manifest) (bundles : List Bundle) : Except DepErr Manifest := do
  let deps ← dependencies bundles
  merge_deps source (toDeps deps)

/-- A value stored in the user-supplied `config` dictionary: an entry/alias
dictionary, the copy-instruction list, or an opaque other value. -/
inductive CVal
  | entriesMap (m : List (String × String))
  | copyList (l : List CopyInstr)
  | other (v : String)
deriving DecidableEq, Repr

/-- The user-supplied `config` dictionary. -/
abbrev ConfigDict := List (String × CVal)

/-- Python `dict.update` on one key: overwrite in place when present (keeping
the key's position), append when absent. -/
def setOrAppend (d : ConfigDict) (k : String) (v : CVal) : ConfigDict :=
  if (d.lookup k).isSome then d.map (fun p => if p.1 == k then (p.1, v) else p)
  else d ++ [(k, v)]

/-- The `config.update({"entry": ..., "aliases": ..., "copy": ...})` call of
`WebpackBundleProject.config`, key by key in the literal's order. -/
def configDictUpdate (d : ConfigDict) (e a : List (String × String))
    (c : List CopyInstr) : ConfigDict :=
  setOrAppend (setOrAppend (setOrAppend d "entry" (.entriesMap e))
    "aliases" (.entriesMap a)) "copy" (.copyList c)

/-- A heap of `config` dictionaries addressed by references, making the
aliasing between the caller's dictionary and `self._config` explicit. -/
def Store : Type := Nat → ConfigDict

/-- Overwrite one slot of the store. -/
def storeSet (σ : Store) (r : Nat) (d : ConfigDict) : Store :=
  fun n => if n = r then d else σ n

/-- Source `WebpackBundleProject.config` for a plain (non-callable) `_config`: the
inherited property returns the dictionary referenced by `r` itself, `update`
mutates it in place, and the same reference is returned. -/
def config_prop (σ : Store) (r : Nat) (e a : List (String × String))
    (c : List CopyInstr) : Store × Nat :=
  (storeSet σ r (configDictUpdate (σ r) e a c), r)

/-- The merged project descriptor: entry map, alias map, validated copy list,
merged three-class dependencies, and the final package manifest. -/
structure Descriptor where
  entries : List (String × String)
  aliases : List (String × String)
  copy : List CopyInstr
  deps : Manifest
  package_json : Manifest
deriving DecidableEq, Repr

/-- Any error the build can raise. -/
inductive BuildErr
  | entryDup (c : DupConflict)
  | aliasDup (c : DupConflict)
  | copyErr (e : CopyError)
  | depErr (e : DepErr)
deriving DecidableEq, Repr

/-- The whole merge: entry points, aliases, validated copy instructions (in
the order `WebpackBundleProject.config` computes them), then the dependency
accumulation and the final package manifest. -/
def buildDescriptor (isFile : PPath → Bool) (config_path : PPath)
    (paths : List PPath) (source : Manifest) (bundles : List Bundle) :
    Except BuildErr Descriptor := do
  let e ← (entry bundles).mapError .entryDup
  let a ← (aliases bundles).mapError .aliasDup
  let c ← (copy isFile config_path paths bundles).mapError .copyErr
  let d ← (dependencies bundles).mapError .depErr
  let pj ← (package_json source bundles).mapError .depErr
  .ok ⟨e, a, c, d, pj⟩

/-- One full invocation against a config store: on success the computed entry
points, aliases and copy list are written into the caller's config dictionary
(the side effect of reading `config`); on failure the store is untouched. -/
def buildRun (σ : Store) (r : Nat) (isFile : PPath → Bool) (config_path : PPath)
    (paths : List PPath) (source : Manifest) (bundles : List Bundle) :
    Except BuildErr Descriptor × Store :=
  match buildDescriptor isFile config_path paths source bundles with
  | .error e => (.error e, σ)
  | .ok D => (.ok D, storeSet σ r (configDictUpdate (σ r) D.entries D.aliases D.copy))

/-- Disjointness of the names contributed by two bundles under the projection
`f` (entry maps or alias maps). -/
def NamesDisjoint (f : Bundle → List (String × String)) (b b' : Bundle) : Prop :=
  ∀ n, n ∈ (f b).map Prod.fst → n ∉ (f b').map Prod.fst

/-- The per-class dependency fold underlying `dependencies`, isolated per
dependency class. -/
def classFold (f : Bundle → List (String × String))
    (acc : List (String × String)) (bundles : List Bundle) :
    Except DepConflict (List (String × String)) :=
  bundles.foldlM (fun m b => mergeDepsClass m (f b)) acc

/-- All version ranges contributed for a package name in one dependency
class, in bundle order (each bundle's first declaration for the name). -/
def contribs (f : Bundle → List (String × String)) (k : String)
    (bundles : List Bundle) : List String :=
  bundles.filterMap (fun b => (f b).lookup k)

/-- Agreement of all contributions in one dependency class: any two bundles
(or one bundle twice) declaring the same package name declare the same
version-range string. -/
def DepCompat (f : Bundle → List (String × String)) (bundles : List Bundle) : Prop :=
  ∀ b ∈ bundles, ∀ b' ∈ bundles,
    ∀ k r r', (k, r) ∈ f b → (k, r') ∈ f b' → r = r'

/-- Deep Python `==` on optional manifest values: dependency-class
dictionaries compare extensionally, everything else compares as values. -/
def MValEqv : Option MVal → Option MVal → Prop
  | some (.depsMap a), some (.depsMap b) => ∀ n, a.lookup n = b.lookup n
  | x, y => x = y

/-- Deep Python `==` on `package.json`-shaped dictionaries. -/
def ManifestEqv (m₁ m₂ : Manifest) : Prop :=
  ∀ k, MValEqv (m₁.lookup k) (m₂.lookup k)

/-- Per-bundle well-formedness that Python dictionaries guarantee for free:
no duplicated keys inside one bundle's entry map or alias map. -/
def BundleWF (bundles : List Bundle) : Prop :=
  ∀ b ∈ bundles, ((b.entry.map Prod.fst).Nodup ∧ (b.aliases.map Prod.fst).Nodup)

/-- Modelled from the spec, sections 3 and 4.4(b): the claimed resolution of a
relative allowed root or copy path against the configured base directory, the
directory part of the config-file path. -/
def specResolveRoot (isFile : PPath → Bool) (config_path r : PPath) : PPath :=
  if r.absolute then r else (get_dir_path isFile config_path).joinpath r

/-- Modelled from the spec, section 4.4(b): the claimed resolved directory of
a copy path — resolve against the base directory, then take the directory
part. -/
def specResolveCopyDir (isFile : PPath → Bool) (config_path p : PPath) : PPath :=
  get_dir_path isFile ((get_dir_path isFile config_path).joinpath p)

/-! Generic association-list lemmas used throughout. -/

theorem lookup_cons_self {α β : Type} [BEq α] [LawfulBEq α] (k : α) (v : β)
    (l : List (α × β)) : ((k, v) :: l).lookup k = some v := by
  simp [List.lookup]

theorem lookup_cons_ne {α β : Type} [BEq α] [LawfulBEq α] {k k' : α} (v : β)
    (l : List (α × β)) (h : k ≠ k') : ((k', v) :: l).lookup k = l.lookup k := by
  simp [List.lookup, beq_false_of_ne h]

theorem lookup_mem {α β : Type} [BEq α] [LawfulBEq α] {l : List (α × β)} {k : α}
    {v : β} (h : l.lookup k = some v) : (k, v) ∈ l := by
  induction l with
  | nil => simp [List.lookup] at h
  | cons p t ih =>
    rw [List.lookup] at h
    by_cases hk : (k == p.1) = true
    · obtain ⟨a, b⟩ := p
      have hk' : k = a := by simpa using hk
      subst hk'
      simp [hk] at h
      subst h
      exact List.mem_cons_self _ _
    · simp [hk] at h
      exact List.mem_cons_of_mem _ (ih h)

theorem lookup_eq_none_iff {α β : Type} [BEq α] [LawfulBEq α] {l : List (α × β)}
    {k : α} : l.lookup k = none ↔ ∀ v, (k, v) ∉ l := by
  induction l with
  | nil => simp [List.lookup]
  | cons p t ih =>
    obtain ⟨a, b⟩ := p
    by_cases hk : k = a
    · subst hk
      constructor
      · intro h
        simp [lookup_cons_self] at h
      · intro h
        exact absurd (List.mem_cons_self _ _) (h b)
    · rw [lookup_cons_ne _ _ hk, ih]
      constructor
      · intro h v hv
        rcases List.mem_cons.mp hv with h' | h'
        · exact hk (congrArg Prod.fst h')
        · exact h v h'
      · intro h v hv
        exact h v (List.mem_cons_of_mem _ hv)

theorem lookup_append {α β : Type} [BEq α] [LawfulBEq α] (l₁ l₂ : List (α × β))
    (k : α) : (l₁ ++ l₂).lookup k = (l₁.lookup k).or (l₂.lookup k) := by
  induction l₁ with
  | nil => simp [List.lookup]
  | cons p t ih =>
    obtain ⟨a, b⟩ := p
    by_cases hk : k = a
    · subst hk
      simp [lookup_cons_self]
    · rw [List.cons_append, lookup_cons_ne _ _ hk, lookup_cons_ne _ _ hk, ih]

theorem lookup_isSome_iff {α β : Type} [BEq α] [LawfulBEq α] {l : List (α × β)}
    {k : α} : (l.lookup k).isSome = true ↔ k ∈ l.map Prod.fst := by
  constructor
  · intro h
    obtain ⟨v, hv⟩ := Option.isSome_iff_exists.mp h
    exact List.mem_map.mpr ⟨(k, v), lookup_mem hv, rfl⟩
  · intro h
    obtain ⟨⟨a, b⟩, hm, ha⟩ := List.mem_map.mp h
    cases ha
    cases ho : List.lookup a l with
    | some v => simp
    | none => exact absurd hm (lookup_eq_none_iff.mp ho b)

theorem mem_lookup {α β : Type} [BEq α] [LawfulBEq α] {l : List (α × β)} {k : α}
    {v : β} (nd : (l.map Prod.fst).Nodup) (h : (k, v) ∈ l) : l.lookup k = some v := by
  induction l with
  | nil => simp at h
  | cons p t ih =>
    obtain ⟨a, b⟩ := p
    rcases List.mem_cons.mp h with h' | h'
    · cases h'
      exact lookup_cons_self _ _ _
    · have hk : k ≠ a := by
        intro hka
        subst hka
        exact (List.nodup_cons.mp nd).1 (List.mem_map.mpr ⟨(k, v), h', rfl⟩)
      rw [lookup_cons_ne _ _ hk]
      exact ih (List.nodup_cons.mp nd).2 h'

theorem lookup_eq_of_perm {α β : Type} [BEq α] [LawfulBEq α] {l₁ l₂ : List (α × β)}
    (hp : l₁.Perm l₂) (nd : (l₁.map Prod.fst).Nodup) (k : α) :
    l₁.lookup k = l₂.lookup k := by
  have nd₂ : (l₂.map Prod.fst).Nodup := ((hp.map Prod.fst).nodup_iff).mp nd
  cases h : l₁.lookup k with
  | some v => exact (mem_lookup nd₂ (hp.mem_iff.mp (lookup_mem h))).symm
  | none =>
    cases h₂ : l₂.lookup k with
    | none => rfl
    | some v => exact absurd (hp.mem_iff.mpr (lookup_mem h₂)) (lookup_eq_none_iff.mp h _)

theorem lookup_map_val {α β γ : Type} [BEq α] [LawfulBEq α] (f : β → γ)
    (l : List (α × β)) (k : α) :
    (l.map (fun p => (p.1, f p.2))).lookup k = (l.lookup k).map f := by
  induction l with
  | nil => simp [List.lookup]
  | cons p t ih =>
    obtain ⟨a, b⟩ := p
    by_cases hk : k = a
    · subst hk
      simp only [List.map_cons]
      rw [lookup_cons_self, lookup_cons_self]
      rfl
    · simp only [List.map_cons]
      rw [lookup_cons_ne _ _ hk, lookup_cons_ne _ _ hk, ih]

/-! Claim theorems: closed evaluations for the refuted claims. -/

/-- C1: at sandbox roots `["/proj/static"]` and config path `/proj/static`
(no existing files), the instruction `{from: "../../etc", to: "assets"}` is
ACCEPTED by `WebpackBundleProject.copy`, because `pathlib.is_relative_to` is a
lexical prefix test on un-normalized segments — even though the spec's
normalized containment test rejects the resolved `from` directory, and even
though the claim says the instruction raises `SandboxViolationError`.  The
empty-sandbox clause of the claim does hold (third conjunct). -/
theorem c1_sandbox_escape_accepted :
    copy (fun _ => false) ⟨true, ["proj", "static"]⟩ [⟨true, ["proj", "static"]⟩]
        [⟨"/bundles/a", [], [],
          [[("from", ⟨false, ["..", "..", "etc"]⟩), ("to", ⟨false, ["assets"]⟩)]],
          ⟨[], [], []⟩⟩]
      = .ok [[("from", ⟨false, ["..", "..", "etc"]⟩), ("to", ⟨false, ["assets"]⟩)]]
    ∧ specIsContainedIn
        (get_dir_path (fun _ => false)
          (PPath.joinpath (get_dir_path (fun _ => false) ⟨true, ["proj", "static"]⟩)
            ⟨false, ["..", "..", "etc"]⟩))
        ⟨true, ["proj", "static"]⟩ = false
    ∧ copy (fun _ => false) ⟨true, ["proj", "static"]⟩ []
        [⟨"/bundles/a", [], [],
          [[("from", ⟨false, ["..", "..", "etc"]⟩), ("to", ⟨false, ["assets"]⟩)]],
          ⟨[], [], []⟩⟩]
      = .ok [[("from", ⟨false, ["..", "..", "etc"]⟩), ("to", ⟨false, ["assets"]⟩)]] := by
  refine ⟨rfl, rfl, rfl⟩

/-- C3 counterexample: a dependency conflict between the base manifest
(`lodash ^4.0.0`) and a bundle's contribution (`lodash ^3.0.0`) is raised by
`package_json` with NO bundle-path annotation (the `try/except` re-annotation
only wraps the bundle-vs-bundle merge inside `dependencies`), refuting the
claim that every dependency conflict carries the contributing bundle's path. -/
theorem c3_counterexample :
    package_json
        [("name", .other "myproj"), ("dependencies", .depsMap [("lodash", "^4.0.0")])]
        [⟨"/bundles/b", [], [], [], ⟨[("lodash", "^3.0.0")], [], []⟩⟩]
      = .error (.conflict ⟨"lodash", "^4.0.0", "^3.0.0", none⟩) := by
  rfl

/-- C4 counterexample: when the config path `/proj/config.json` is an existing
file, the relative allowed root `static` resolves (per the source) to
`/proj/config.json/static` — the bare config-file path joined with the root —
whereas the claim's formula `dirPart(configPath)/static` gives `/proj/static`;
the two differ, refuting the claim that roots are resolved against the
configured base directory. -/
theorem c4_counterexample :
    allowed_copy_paths ⟨true, ["proj", "config.json"]⟩ [⟨false, ["static"]⟩]
      = [⟨true, ["proj", "config.json", "static"]⟩]
    ∧ specResolveRoot (fun p => decide (p = ⟨true, ["proj", "config.json"]⟩))
        ⟨true, ["proj", "config.json"]⟩ ⟨false, ["static"]⟩
      = ⟨true, ["proj", "static"]⟩
    ∧ allowed_copy_paths ⟨true, ["proj", "config.json"]⟩ [⟨false, ["static"]⟩]
      ≠ [specResolveRoot (fun p => decide (p = ⟨true, ["proj", "config.json"]⟩))
          ⟨true, ["proj", "config.json"]⟩ ⟨false, ["static"]⟩] := by
  refine ⟨rfl, rfl, by decide⟩

/-- C2 counterexample: two non-conflicting bundles that each carry one copy
instruction; swapping them still succeeds but produces a different (reordered)
validated copy list, so the merged descriptors are NOT identical. -/
theorem c2_counterexample :
    ((buildDescriptor (fun _ => false) ⟨true, ["p"]⟩ [] []
        [⟨"/p/a", [("m1", "a.js")], [], [[("from", ⟨false, ["a"]⟩), ("to", ⟨false, ["b"]⟩)]], ⟨[], [], []⟩⟩,
         ⟨"/p/b", [("m2", "b.js")], [], [[("from", ⟨false, ["c"]⟩), ("to", ⟨false, ["d"]⟩)]], ⟨[], [], []⟩⟩]).map
        Descriptor.copy)
      = .ok [[("from", ⟨false, ["a"]⟩), ("to", ⟨false, ["b"]⟩)],
             [("from", ⟨false, ["c"]⟩), ("to", ⟨false, ["d"]⟩)]]
    ∧ ((buildDescriptor (fun _ => false) ⟨true, ["p"]⟩ [] []
        [⟨"/p/b", [("m2", "b.js")], [], [[("from", ⟨false, ["c"]⟩), ("to", ⟨false, ["d"]⟩)]], ⟨[], [], []⟩⟩,
         ⟨"/p/a", [("m1", "a.js")], [], [[("from", ⟨false, ["a"]⟩), ("to", ⟨false, ["b"]⟩)]], ⟨[], [], []⟩⟩]).map
        Descriptor.copy)
      = .ok [[("from", ⟨false, ["c"]⟩), ("to", ⟨false, ["d"]⟩)],
             [("from", ⟨false, ["a"]⟩), ("to", ⟨false, ["b"]⟩)]]
    ∧ ([[("from", ⟨false, ["a"]⟩), ("to", ⟨false, ["b"]⟩)],
        [("from", ⟨false, ["c"]⟩), ("to", ⟨false, ["d"]⟩)]] : List CopyInstr)
      ≠ [[("from", ⟨false, ["c"]⟩), ("to", ⟨false, ["d"]⟩)],
         [("from", ⟨false, ["a"]⟩), ("to", ⟨false, ["b"]⟩)]] := by
  refine ⟨rfl, rfl, by decide⟩

/-! Lemmas on the copy validator. -/

theorem copyInstrFold_ok_of (isFile : PPath → Bool) (base : PPath)
    (allowed : List PPath) (l : List CopyInstr) :
    ∀ acc, (∀ c ∈ l, checkCopyInstr isFile base allowed c = none) →
      copyInstrFold isFile base allowed acc l = .ok (acc ++ l) := by
  induction l with
  | nil =>
    intro acc _
    simp only [copyInstrFold, List.foldlM_nil, List.append_nil]
    rfl
  | cons c t ih =>
    intro acc h
    have hc := h c (List.mem_cons_self _ _)
    have heq : copyInstrFold isFile base allowed acc (c :: t)
        = copyInstrFold isFile base allowed (acc ++ [c]) t := by
      simp only [copyInstrFold, List.foldlM_cons, hc]
      rfl
    rw [heq, ih (acc ++ [c]) (fun c' hc' => h c' (List.mem_cons_of_mem _ hc'))]
    simp

theorem copyInstrFold_ok_then (isFile : PPath → Bool) (base : PPath)
    (allowed : List PPath) (l : List CopyInstr) :
    ∀ acc out, copyInstrFold isFile base allowed acc l = .ok out →
      out = acc ++ l ∧ ∀ c ∈ l, checkCopyInstr isFile base allowed c = none := by
  induction l with
  | nil =>
    intro acc out h
    cases h
    simp
  | cons c t ih =>
    intro acc out h
    cases hc : checkCopyInstr isFile base allowed c with
    | some e =>
      rw [copyInstrFold, List.foldlM_cons] at h
      simp only [hc] at h
      rw [show ((Except.error e : Except CopyError (List CopyInstr)) >>=
        fun init => List.foldlM (fun acc c =>
          match checkCopyInstr isFile base allowed c with
          | some e => Except.error e
          | none => Except.ok (acc ++ [c])) init t) = Except.error e from rfl] at h
      exact Except.noConfusion h
    | none =>
      have heq : copyInstrFold isFile base allowed acc (c :: t)
          = copyInstrFold isFile base allowed (acc ++ [c]) t := by
        simp only [copyInstrFold, List.foldlM_cons, hc]
        rfl
      rw [heq] at h
      obtain ⟨ho, hall⟩ := ih (acc ++ [c]) out h
      refine ⟨by simp [ho], ?_⟩
      intro c' hc'
      rcases List.mem_cons.mp hc' with h' | h'
      · subst h'
        exact hc
      · exact hall c' h'

theorem copy_fold_ok_of (isFile : PPath → Bool) (base : PPath)
    (allowed : List PPath) (bs : List Bundle) :
    ∀ acc, (∀ b ∈ bs, ∀ c ∈ b.copy, checkCopyInstr isFile base allowed c = none) →
      bs.foldlM (copyBundleFold isFile base allowed) acc
        = .ok (acc ++ bs.flatMap Bundle.copy) := by
  induction bs with
  | nil =>
    intro acc _
    simp only [List.foldlM_nil, List.flatMap_nil, List.append_nil]
    rfl
  | cons b t ih =>
    intro acc h
    have hb : copyBundleFold isFile base allowed acc b = .ok (acc ++ b.copy) :=
      copyInstrFold_ok_of isFile base allowed b.copy acc (h b (List.mem_cons_self _ _))
    rw [List.foldlM_cons, hb]
    rw [show ((Except.ok (acc ++ b.copy) : Except CopyError (List CopyInstr)) >>=
      fun init => List.foldlM (copyBundleFold isFile base allowed) init t)
      = List.foldlM (copyBundleFold isFile base allowed) (acc ++ b.copy) t from rfl]
    rw [ih (acc ++ b.copy) (fun b' hb' => h b' (List.mem_cons_of_mem _ hb'))]
    simp

theorem copy_fold_ok_then (isFile : PPath → Bool) (base : PPath)
    (allowed : List PPath) (bs : List Bundle) :
    ∀ acc out, bs.foldlM (copyBundleFold isFile base allowed) acc = .ok out →
      out = acc ++ bs.flatMap Bundle.copy
        ∧ ∀ b ∈ bs, ∀ c ∈ b.copy, checkCopyInstr isFile base allowed c = none := by
  induction bs with
  | nil =>
    intro acc out h
    cases h
    simp
  | cons b t ih =>
    intro acc out h
    rw [List.foldlM_cons] at h
    cases hb : copyBundleFold isFile base allowed acc b with
    | error e =>
      rw [hb] at h
      rw [show ((Except.error e : Except CopyError (List CopyInstr)) >>=
        fun init => List.foldlM (copyBundleFold isFile base allowed) init t)
        = Except.error e from rfl] at h
      exact Except.noConfusion h
    | ok acc1 =>
      rw [hb] at h
      rw [show ((Except.ok acc1 : Except CopyError (List CopyInstr)) >>=
        fun init => List.foldlM (copyBundleFold isFile base allowed) init t)
        = List.foldlM (copyBundleFold isFile base allowed) acc1 t from rfl] at h
      obtain ⟨ha1, hbc⟩ := copyInstrFold_ok_then isFile base allowed b.copy acc acc1 hb
      obtain ⟨ho, hall⟩ := ih acc1 out h
      subst ha1
      refine ⟨by simp [ho], ?_⟩
      intro b' hb' c hc
      rcases List.mem_cons.mp hb' with h' | h'
      · subst h'
        exact hbc c hc
      · exact hall b' h' c hc

theorem copy_isOk_iff (isFile : PPath → Bool) (config_path : PPath)
    (paths : List PPath) (bs : List Bundle) :
    (copy isFile config_path paths bs).isOk = true
      ↔ ∀ b ∈ bs, ∀ c ∈ b.copy,
          checkCopyInstr isFile (get_dir_path isFile config_path)
            (allowed_copy_paths config_path paths) c = none := by
  constructor
  · intro h
    rw [copy] at h
    cases ho : List.foldlM (copyBundleFold isFile (get_dir_path isFile config_path)
        (allowed_copy_paths config_path paths)) [] bs with
    | error e =>
      rw [ho] at h
      simp [Except.isOk, Except.toBool] at h
    | ok out =>
      exact (copy_fold_ok_then _ _ _ bs [] out ho).2
  · intro h
    rw [copy, copy_fold_ok_of _ _ _ bs [] h]
    rfl

theorem copy_ok_val (isFile : PPath → Bool) (config_path : PPath)
    (paths : List PPath) (bs : List Bundle) (out : List CopyInstr)
    (h : copy isFile config_path paths bs = .ok out) :
    out = bs.flatMap Bundle.copy := by
  rw [copy] at h
  simpa using (copy_fold_ok_then _ _ _ bs [] out h).1

/-- C8: whenever `WebpackBundleProject.copy` succeeds, the validated list is
exactly the bundles' original, unresolved copy instructions, concatenated in
bundle-list order and, within each bundle, in declaration order (resolution is
used only for validation, never to rewrite instructions). -/
theorem c8_copy_returns_originals (isFile : PPath → Bool) (config_path : PPath)
    (paths : List PPath) (bs : List Bundle) (out : List CopyInstr)
    (h : copy isFile config_path paths bs = .ok out) :
    out = bs.flatMap Bundle.copy :=
  copy_ok_val isFile config_path paths bs out h

/-- C8 witness: a concrete two-bundle run, with a sandbox, whose validated
list is the bundles' own instructions in order. -/
theorem c8_copy_returns_originals_witness :
    copy (fun _ => false) ⟨true, ["p"]⟩ [⟨true, ["p"]⟩]
        [⟨"/p/a", [], [], [[("from", ⟨false, ["u"]⟩), ("to", ⟨false, ["v"]⟩)]], ⟨[], [], []⟩⟩,
         ⟨"/p/b", [], [], [[("from", ⟨false, ["w"]⟩), ("to", ⟨false, ["x"]⟩)]], ⟨[], [], []⟩⟩]
      = .ok [[("from", ⟨false, ["u"]⟩), ("to", ⟨false, ["v"]⟩)],
             [("from", ⟨false, ["w"]⟩), ("to", ⟨false, ["x"]⟩)]]
    ∧ ([[("from", ⟨false, ["u"]⟩), ("to", ⟨false, ["v"]⟩)],
        [("from", ⟨false, ["w"]⟩), ("to", ⟨false, ["x"]⟩)]] : List CopyInstr)
      = ([⟨"/p/a", [], [], [[("from", ⟨false, ["u"]⟩), ("to", ⟨false, ["v"]⟩)]], ⟨[], [], []⟩⟩,
          ⟨"/p/b", [], [], [[("from", ⟨false, ["w"]⟩), ("to", ⟨false, ["x"]⟩)]], ⟨[], [], []⟩⟩] :
            List Bundle).flatMap Bundle.copy :=
  ⟨rfl, c8_copy_returns_originals (fun _ => false) ⟨true, ["p"]⟩ [⟨true, ["p"]⟩] _ _ rfl⟩

/-! Lemmas on the entry/alias aggregation. -/

theorem dupCheckStep_ok_of (acc : List (String × String × String)) (bpath : String)
    (items : List (String × String))
    (h : ∀ it ∈ items, it.1 ∉ acc.map Prod.fst) :
    dupCheckStep acc bpath items = .ok (acc ++ items.map (fun it => (it.1, it.2, bpath))) := by
  have hf : items.find? (fun it => acc.any (fun q => q.1 == it.1)) = none := by
    rw [List.find?_eq_none]
    intro it hit hany
    obtain ⟨q, hq, hq1⟩ := List.any_eq_true.mp hany
    exact h it hit (List.mem_map.mpr ⟨q, hq, beq_iff_eq.mp hq1⟩)
  rw [dupCheckStep, hf]

theorem dupCheckStep_ok_then (acc : List (String × String × String)) (bpath : String)
    (items : List (String × String)) (out : List (String × String × String))
    (h : dupCheckStep acc bpath items = .ok out) :
    out = acc ++ items.map (fun it => (it.1, it.2, bpath))
      ∧ ∀ it ∈ items, it.1 ∉ acc.map Prod.fst := by
  rw [dupCheckStep] at h
  cases hf : items.find? (fun it => acc.any (fun q => q.1 == it.1)) with
  | some it =>
    rw [hf] at h
    exact Except.noConfusion h
  | none =>
    rw [hf] at h
    cases h
    refine ⟨rfl, ?_⟩
    intro it hit hmem
    have := List.find?_eq_none.mp hf it hit
    apply this
    simp only [List.any_eq_true]
    obtain ⟨q, hq, hq1⟩ := List.mem_map.mp hmem
    exact ⟨q, hq, beq_iff_eq.mpr hq1⟩

theorem dupCheckStep_err_then (acc : List (String × String × String)) (bpath : String)
    (items : List (String × String)) (e : DupConflict)
    (h : dupCheckStep acc bpath items = .error e) :
    e.newBundle = bpath ∧ (e.name, e.newValue) ∈ items
      ∧ (e.name, (e.prevValue, e.prevBundle)) ∈ acc := by
  rw [dupCheckStep] at h
  cases hf : items.find? (fun it => acc.any (fun q => q.1 == it.1)) with
  | none =>
    rw [hf] at h
    exact Except.noConfusion h
  | some it =>
    rw [hf] at h
    have hpred := List.find?_some hf
    have hsome : (acc.lookup it.1).isSome = true := by
      rw [lookup_isSome_iff]
      obtain ⟨q, hq, hq1⟩ := List.any_eq_true.mp hpred
      exact List.mem_map.mpr ⟨q, hq, (beq_iff_eq.mp hq1)⟩
    obtain ⟨prev, hprev⟩ := Option.isSome_iff_exists.mp hsome
    have h' : Except.error (⟨it.1, ((acc.lookup it.1).getD ("", "")).1,
        ((acc.lookup it.1).getD ("", "")).2, it.2, bpath⟩ : DupConflict)
        = Except.error (α := List (String × String × String)) e := h
    rw [hprev] at h'
    injection h' with he
    subst he
    exact ⟨rfl, List.mem_of_find?_eq_some hf, lookup_mem hprev⟩

theorem dupFold_ok_of (f : Bundle → List (String × String)) (bs : List Bundle) :
    ∀ acc, (∀ b ∈ bs, ∀ n ∈ (f b).map Prod.fst, n ∉ acc.map Prod.fst) →
      bs.Pairwise (NamesDisjoint f) →
      dupFold f acc bs = .ok (acc ++ bs.flatMap (tagged f)) := by
  induction bs with
  | nil =>
    intro acc _ _
    simp only [dupFold, List.foldlM_nil, List.flatMap_nil, List.append_nil]
    rfl
  | cons b t ih =>
    intro acc hacc hpw
    have hstep : dupCheckStep acc b.path (f b)
        = .ok (acc ++ (f b).map (fun it => (it.1, it.2, b.path))) :=
      dupCheckStep_ok_of acc b.path (f b)
        (fun it hit => hacc b (List.mem_cons_self _ _) it.1 (List.mem_map.mpr ⟨it, hit, rfl⟩))
    have heq : dupFold f acc (b :: t) = dupFold f (acc ++ tagged f b) t := by
      rw [dupFold, List.foldlM_cons, hstep]
      rfl
    rw [heq]
    obtain ⟨hhead, htail⟩ := List.pairwise_cons.mp hpw
    rw [ih (acc ++ tagged f b) ?_ htail]
    · simp [List.flatMap_cons, List.append_assoc]
    · intro b' hb' n hn
      rw [List.map_append, List.mem_append]
      rintro (hna | hnb)
      · exact hacc b' (List.mem_cons_of_mem _ hb') n hn hna
      · have hnb' : n ∈ (f b).map Prod.fst := by
          simpa [tagged, List.map_map, Function.comp] using hnb
        exact hhead b' hb' n hnb' hn

theorem dupFold_ok_then (f : Bundle → List (String × String)) (bs : List Bundle) :
    ∀ acc out, dupFold f acc bs = .ok out →
      out = acc ++ bs.flatMap (tagged f)
        ∧ (∀ b ∈ bs, ∀ n ∈ (f b).map Prod.fst, n ∉ acc.map Prod.fst)
        ∧ bs.Pairwise (NamesDisjoint f) := by
  induction bs with
  | nil =>
    intro acc out h
    cases h
    simp
  | cons b t ih =>
    intro acc out h
    rw [dupFold, List.foldlM_cons] at h
    cases hstep : dupCheckStep acc b.path (f b) with
    | error e =>
      rw [hstep] at h
      rw [show ((Except.error e : Except DupConflict (List (String × String × String))) >>=
        fun init => List.foldlM (fun acc b => dupCheckStep acc b.path (f b)) init t)
        = Except.error e from rfl] at h
      exact Except.noConfusion h
    | ok acc1 =>
      rw [hstep] at h
      rw [show ((Except.ok acc1 : Except DupConflict (List (String × String × String))) >>=
        fun init => List.foldlM (fun acc b => dupCheckStep acc b.path (f b)) init t)
        = List.foldlM (fun acc b => dupCheckStep acc b.path (f b)) acc1 t from rfl] at h
      obtain ⟨hacc1, hdisj⟩ := dupCheckStep_ok_then acc b.path (f b) acc1 hstep
      obtain ⟨hout, hacc', hpw⟩ := ih acc1 out h
      subst hacc1
      have hkeys : ∀ b' ∈ t, ∀ n ∈ (f b').map Prod.fst,
          n ∉ acc.map Prod.fst ∧ n ∉ (f b).map Prod.fst := by
        intro b' hb' n hn
        have := hacc' b' hb' n hn
        rw [List.map_append, List.mem_append] at this
        push_neg at this
        refine ⟨this.1, ?_⟩
        intro hnb
        apply this.2
        simpa [tagged, List.map_map, Function.comp] using hnb
      refine ⟨?_, ?_, ?_⟩
      · rw [hout]
        simp [tagged, List.flatMap_cons, List.append_assoc]
      · intro b' hb' n hn
        rcases List.mem_cons.mp hb' with h' | h'
        · subst h'
          obtain ⟨it, hit, hit1⟩ := List.mem_map.mp hn
          exact hit1 ▸ hdisj it hit
        · exact (hkeys b' h' n hn).1
      · rw [List.pairwise_cons]
        refine ⟨?_, hpw⟩
        intro b' hb' n hn hn'
        exact (hkeys b' hb' n hn').2 hn

theorem dupFold_err_then (f : Bundle → List (String × String)) (bs : List Bundle) :
    ∀ acc e, dupFold f acc bs = .error e →
      (∃ b ∈ bs, e.newBundle = b.path ∧ (e.name, e.newValue) ∈ f b)
        ∧ ((e.name, (e.prevValue, e.prevBundle)) ∈ acc
            ∨ ∃ b ∈ bs, e.prevBundle = b.path ∧ (e.name, e.prevValue) ∈ f b) := by
  induction bs with
  | nil =>
    intro acc e h
    cases h
  | cons b t ih =>
    intro acc e h
    rw [dupFold, List.foldlM_cons] at h
    cases hstep : dupCheckStep acc b.path (f b) with
    | error e' =>
      rw [hstep] at h
      have h' : (Except.error e' : Except DupConflict (List (String × String × String)))
          = Except.error e := h
      injection h' with he
      obtain ⟨hnb, hnew, hprev⟩ := dupCheckStep_err_then acc b.path (f b) e' hstep
      rw [he] at hnb hnew hprev
      exact ⟨⟨b, List.mem_cons_self _ _, hnb, hnew⟩, Or.inl hprev⟩
    | ok acc1 =>
      rw [hstep] at h
      rw [show ((Except.ok acc1 : Except DupConflict (List (String × String × String))) >>=
        fun init => List.foldlM (fun acc b => dupCheckStep acc b.path (f b)) init t)
        = List.foldlM (fun acc b => dupCheckStep acc b.path (f b)) acc1 t from rfl] at h
      obtain ⟨hacc1, _⟩ := dupCheckStep_ok_then acc b.path (f b) acc1 hstep
      subst hacc1
      obtain ⟨hnew, hprev⟩ := ih (acc ++ (f b).map (fun it => (it.1, it.2, b.path))) e h
      refine ⟨?_, ?_⟩
      · obtain ⟨b', hb', hx⟩ := hnew
        exact ⟨b', List.mem_cons_of_mem _ hb', hx⟩
      · rcases hprev with hmem | ⟨b', hb', hx⟩
        · rcases List.mem_append.mp hmem with hacc | htag
          · exact Or.inl hacc
          · obtain ⟨it, hit, hit1⟩ := List.mem_map.mp htag
            have h1 : it.1 = e.name :=
              congrArg (fun q : String × String × String => q.1) hit1
            have h2 : it.2 = e.prevValue :=
              congrArg (fun q : String × String × String => q.2.1) hit1
            have h3 : b.path = e.prevBundle :=
              congrArg (fun q : String × String × String => q.2.2) hit1
            refine Or.inr ⟨b, List.mem_cons_self _ _, h3.symm, ?_⟩
            rw [← h1, ← h2]
            exact hit
        · exact Or.inr ⟨b', List.mem_cons_of_mem _ hb', hx⟩

theorem tagged_proj (f : Bundle → List (String × String)) (b : Bundle) :
    (tagged f b).map (fun q => (q.1, q.2.1)) = f b := by
  rw [tagged, List.map_map]
  have hcomp : ((fun q : String × String × String => (q.1, q.2.1))
      ∘ fun it : String × String => (it.1, it.2, b.path)) = id := by
    funext it
    rfl
  rw [hcomp, List.map_id]

theorem entry_ok_val (bs : List Bundle) (l : List (String × String))
    (h : entry bs = .ok l) : l = bs.flatMap Bundle.entry := by
  rw [entry] at h
  cases ho : dupFold Bundle.entry [] bs with
  | error e =>
    rw [ho] at h
    exact Except.noConfusion h
  | ok acc =>
    rw [ho] at h
    have h' : Except.ok (acc.map (fun q => (q.1, q.2.1)))
        = Except.ok (ε := DupConflict) l := h
    injection h' with he
    obtain ⟨hval, -, -⟩ := dupFold_ok_then Bundle.entry bs [] acc ho
    subst he
    rw [hval]
    simp only [List.nil_append, List.map_flatMap, tagged_proj]

theorem entry_isOk_iff (bs : List Bundle) :
    (entry bs).isOk = true ↔ bs.Pairwise (NamesDisjoint Bundle.entry) := by
  constructor
  · intro h
    rw [entry] at h
    cases ho : dupFold Bundle.entry [] bs with
    | error e =>
      rw [ho] at h
      simp [Except.isOk, Except.toBool, Except.map] at h
    | ok acc =>
      exact (dupFold_ok_then Bundle.entry bs [] acc ho).2.2
  · intro h
    rw [entry, dupFold_ok_of Bundle.entry bs [] (by simp) h]
    rfl

theorem entry_err_then (bs : List Bundle) (e : DupConflict)
    (h : entry bs = .error e) :
    (∃ b ∈ bs, e.newBundle = b.path ∧ (e.name, e.newValue) ∈ b.entry)
      ∧ (∃ b ∈ bs, e.prevBundle = b.path ∧ (e.name, e.prevValue) ∈ b.entry) := by
  rw [entry] at h
  cases ho : dupFold Bundle.entry [] bs with
  | ok acc =>
    rw [ho] at h
    exact Except.noConfusion h
  | error e' =>
    rw [ho] at h
    have h' : (Except.error e' : Except DupConflict (List (String × String))) = .error e := h
    injection h' with he
    obtain ⟨hnew, hprev⟩ := dupFold_err_then Bundle.entry bs [] e' ho
    rw [he] at hnew hprev
    rcases hprev with hmem | hx
    · cases hmem
    · exact ⟨hnew, hx⟩

theorem aliases_ok_val (bs : List Bundle) (l : List (String × String))
    (h : aliases bs = .ok l) : l = bs.flatMap Bundle.aliases := by
  rw [aliases] at h
  cases ho : dupFold Bundle.aliases [] bs with
  | error e =>
    rw [ho] at h
    exact Except.noConfusion h
  | ok acc =>
    rw [ho] at h
    have h' : Except.ok (acc.map (fun q => (q.1, q.2.1)))
        = Except.ok (ε := DupConflict) l := h
    injection h' with he
    obtain ⟨hval, -, -⟩ := dupFold_ok_then Bundle.aliases bs [] acc ho
    subst he
    rw [hval]
    simp only [List.nil_append, List.map_flatMap, tagged_proj]

theorem aliases_isOk_iff (bs : List Bundle) :
    (aliases bs).isOk = true ↔ bs.Pairwise (NamesDisjoint Bundle.aliases) := by
  constructor
  · intro h
    rw [aliases] at h
    cases ho : dupFold Bundle.aliases [] bs with
    | error e =>
      rw [ho] at h
      simp [Except.isOk, Except.toBool, Except.map] at h
    | ok acc =>
      exact (dupFold_ok_then Bundle.aliases bs [] acc ho).2.2
  · intro h
    rw [aliases, dupFold_ok_of Bundle.aliases bs [] (by simp) h]
    rfl

/-- C6: entry-map aggregation succeeds exactly when the bundles' entry names
are pairwise disjoint (conflict is detected on key presence alone, so two
bundles contributing the identical `(name, path)` pair still conflict — the
disjointness condition never looks at values); on success the merged map is
exactly the union of the bundles' entry maps in order; on failure the raised
error names the entry name, both contributed file paths, and both owning
bundle paths. -/
theorem c6_entry_aggregation (bs : List Bundle) :
    ((entry bs).isOk = true ↔ bs.Pairwise (NamesDisjoint Bundle.entry))
    ∧ (∀ l, entry bs = .ok l → l = bs.flatMap Bundle.entry)
    ∧ (∀ e, entry bs = .error e →
        (∃ b ∈ bs, e.newBundle = b.path ∧ (e.name, e.newValue) ∈ b.entry)
        ∧ (∃ b ∈ bs, e.prevBundle = b.path ∧ (e.name, e.prevValue) ∈ b.entry)) :=
  ⟨entry_isOk_iff bs, entry_ok_val bs, entry_err_then bs⟩

/-- C6 witness: two disjoint bundles merge to the union of their entry maps,
and two bundles re-contributing the identical `("main", "a.js")` pair raise a
duplicate-entry error naming both bundles; the inner hypotheses of the claim
theorem are discharged on these concrete inputs. -/
theorem c6_entry_aggregation_witness :
    (entry [⟨"/p/a", [("main", "a.js")], [], [], ⟨[], [], []⟩⟩,
            ⟨"/p/b", [("other", "b.js")], [], [], ⟨[], [], []⟩⟩]
        = .ok [("main", "a.js"), ("other", "b.js")])
    ∧ ([("main", "a.js"), ("other", "b.js")]
        = ([⟨"/p/a", [("main", "a.js")], [], [], ⟨[], [], []⟩⟩,
            ⟨"/p/b", [("other", "b.js")], [], [], ⟨[], [], []⟩⟩] :
              List Bundle).flatMap Bundle.entry)
    ∧ (entry [⟨"/p/a", [("main", "a.js")], [], [], ⟨[], [], []⟩⟩,
              ⟨"/p/b", [("main", "a.js")], [], [], ⟨[], [], []⟩⟩]
        = .error ⟨"main", "a.js", "/p/a", "a.js", "/p/b"⟩)
    ∧ ((∃ b ∈ ([⟨"/p/a", [("main", "a.js")], [], [], ⟨[], [], []⟩⟩,
                ⟨"/p/b", [("main", "a.js")], [], [], ⟨[], [], []⟩⟩] : List Bundle),
          (⟨"main", "a.js", "/p/a", "a.js", "/p/b"⟩ : DupConflict).newBundle = b.path
            ∧ ("main", "a.js") ∈ b.entry)
        ∧ (∃ b ∈ ([⟨"/p/a", [("main", "a.js")], [], [], ⟨[], [], []⟩⟩,
                  ⟨"/p/b", [("main", "a.js")], [], [], ⟨[], [], []⟩⟩] : List Bundle),
          (⟨"main", "a.js", "/p/a", "a.js", "/p/b"⟩ : DupConflict).prevBundle = b.path
            ∧ ("main", "a.js") ∈ b.entry)) :=
  ⟨rfl,
   (c6_entry_aggregation _).2.1 _ rfl,
   rfl,
   (c6_entry_aggregation _).2.2 _ rfl⟩

/-! Lemmas on the per-class dependency merge. -/

theorem mergeDepsClass_nil (m : List (String × String)) :
    mergeDepsClass m [] = .ok m :=
  rfl

theorem mergeDepsClass_cons_none {m : List (String × String)} {k₀ r₀ : String}
    (rest : List (String × String)) (h₀ : m.lookup k₀ = none) :
    mergeDepsClass m ((k₀, r₀) :: rest) = mergeDepsClass (m ++ [(k₀, r₀)]) rest := by
  simp only [mergeDepsClass, List.foldlM_cons, h₀]
  rfl

theorem mergeDepsClass_cons_eq {m : List (String × String)} {k₀ r₀ : String}
    (rest : List (String × String)) (h₀ : m.lookup k₀ = some r₀) :
    mergeDepsClass m ((k₀, r₀) :: rest) = mergeDepsClass m rest := by
  simp only [mergeDepsClass, List.foldlM_cons, h₀, beq_self_eq_true, if_true]
  rfl

theorem mergeDepsClass_cons_conflict {m : List (String × String)} {k₀ r₀ r : String}
    (rest : List (String × String)) (h₀ : m.lookup k₀ = some r) (hne : r ≠ r₀) :
    mergeDepsClass m ((k₀, r₀) :: rest) = .error ⟨k₀, r, r₀, none⟩ := by
  simp only [mergeDepsClass, List.foldlM_cons, h₀, beq_false_of_ne hne,
    Bool.false_eq_true, if_false]
  rfl

theorem lookup_singleton_self {β : Type} (k : String) (v : β) :
    List.lookup k [(k, v)] = some v :=
  lookup_cons_self k v []

theorem lookup_singleton_ne {β : Type} {k k₀ : String} (v : β) (h : k ≠ k₀) :
    List.lookup k [(k₀, v)] = none :=
  lookup_cons_ne v [] h

theorem mergeDepsClass_ok_lookup (c : List (String × String)) :
    ∀ m m', mergeDepsClass m c = .ok m' →
      ∀ k, m'.lookup k = (m.lookup k).or (c.lookup k) := by
  induction c with
  | nil =>
    intro m m' h k
    cases h
    simp
  | cons p rest ih =>
    intro m m' h k
    obtain ⟨k₀, r₀⟩ := p
    cases h₀ : m.lookup k₀ with
    | none =>
      rw [mergeDepsClass_cons_none rest h₀] at h
      rw [ih _ _ h k, lookup_append]
      by_cases hk : k = k₀
      · subst hk
        rw [h₀, lookup_singleton_self, lookup_cons_self]
        rfl
      · rw [lookup_singleton_ne r₀ hk, lookup_cons_ne r₀ rest hk, Option.or_none]
    | some r' =>
      by_cases hr : r' = r₀
      · subst hr
        rw [mergeDepsClass_cons_eq rest h₀] at h
        rw [ih _ _ h k]
        by_cases hk : k = k₀
        · subst hk
          rw [h₀, lookup_cons_self]
          rfl
        · rw [lookup_cons_ne _ rest hk]
      · rw [mergeDepsClass_cons_conflict rest h₀ hr] at h
        exact Except.noConfusion h

theorem mergeDepsClass_stable {m c m' : List (String × String)} {k : String}
    {r : String} (h : mergeDepsClass m c = .ok m') (hm : m.lookup k = some r) :
    m'.lookup k = some r := by
  rw [mergeDepsClass_ok_lookup c m m' h k, hm, Option.or_some]

theorem mergeDepsClass_mem_lookup (c : List (String × String)) :
    ∀ m m', mergeDepsClass m c = .ok m' →
      ∀ k r, (k, r) ∈ c → m'.lookup k = some r := by
  induction c with
  | nil =>
    intro m m' _ k r hm
    cases hm
  | cons p rest ih =>
    intro m m' h k r hm
    obtain ⟨k₀, r₀⟩ := p
    cases h₀ : m.lookup k₀ with
    | none =>
      rw [mergeDepsClass_cons_none rest h₀] at h
      rcases List.mem_cons.mp hm with h' | h'
      · injection h' with h1 h2
        subst h1
        subst h2
        apply mergeDepsClass_stable h
        rw [lookup_append, h₀, lookup_singleton_self]
        rfl
      · exact ih _ _ h k r h'
    | some r' =>
      by_cases hr : r' = r₀
      · subst hr
        rw [mergeDepsClass_cons_eq rest h₀] at h
        rcases List.mem_cons.mp hm with h' | h'
        · injection h' with h1 h2
          subst h1
          subst h2
          exact mergeDepsClass_stable h h₀
        · exact ih _ _ h k r h'
      · rw [mergeDepsClass_cons_conflict rest h₀ hr] at h
        exact Except.noConfusion h

theorem mergeDepsClass_ok_of (c : List (String × String)) :
    ∀ m, (∀ k r, (k, r) ∈ c → ∀ r', m.lookup k = some r' → r' = r) →
      (∀ k r r', (k, r) ∈ c → (k, r') ∈ c → r = r') →
      (mergeDepsClass m c).isOk = true := by
  induction c with
  | nil =>
    intro m _ _
    rfl
  | cons p rest ih =>
    intro m h₁ h₂
    obtain ⟨k₀, r₀⟩ := p
    cases h₀ : m.lookup k₀ with
    | none =>
      rw [mergeDepsClass_cons_none rest h₀]
      apply ih (m ++ [(k₀, r₀)])
      · intro k r hk r' hl
        rw [lookup_append] at hl
        cases hm : m.lookup k with
        | none =>
          rw [hm] at hl
          by_cases hkk : k = k₀
          · subst hkk
            rw [lookup_singleton_self] at hl
            injection hl with hv
            subst hv
            exact h₂ k r₀ r (List.mem_cons_self _ _) (List.mem_cons_of_mem _ hk)
          · rw [lookup_singleton_ne r₀ hkk] at hl
            exact Option.noConfusion hl
        | some v =>
          rw [hm, Option.or_some] at hl
          injection hl with hv
          subst hv
          exact h₁ k r (List.mem_cons_of_mem _ hk) _ hm
      · intro k r r' ha hb
        exact h₂ k r r' (List.mem_cons_of_mem _ ha) (List.mem_cons_of_mem _ hb)
    | some r' =>
      have hr : r' = r₀ := h₁ k₀ r₀ (List.mem_cons_self _ _) r' h₀
      subst hr
      rw [mergeDepsClass_cons_eq rest h₀]
      apply ih m
      · intro k r hk r'' hl
        exact h₁ k r (List.mem_cons_of_mem _ hk) r'' hl
      · intro k r r'' ha hb
        exact h₂ k r r'' (List.mem_cons_of_mem _ ha) (List.mem_cons_of_mem _ hb)

theorem mergeDepsClass_noop (c : List (String × String)) :
    ∀ m, (∀ p ∈ c, m.lookup p.1 = some p.2) → mergeDepsClass m c = .ok m := by
  induction c with
  | nil =>
    intro m _
    rfl
  | cons p rest ih =>
    intro m h
    obtain ⟨k₀, r₀⟩ := p
    rw [mergeDepsClass_cons_eq rest (h (k₀, r₀) (List.mem_cons_self _ _))]
    exact ih m (fun p hp => h p (List.mem_cons_of_mem _ hp))

theorem mergeDepsClass_err_then (c : List (String × String)) :
    ∀ m e, mergeDepsClass m c = .error e →
      e.source = none ∧ (e.name, e.newRange) ∈ c
        ∧ (m.lookup e.name = some e.oldRange ∨ (e.name, e.oldRange) ∈ c) := by
  induction c with
  | nil =>
    intro m e h
    cases h
  | cons p rest ih =>
    intro m e h
    obtain ⟨k₀, r₀⟩ := p
    cases h₀ : m.lookup k₀ with
    | none =>
      rw [mergeDepsClass_cons_none rest h₀] at h
      obtain ⟨hs, hnew, hold⟩ := ih _ _ h
      refine ⟨hs, List.mem_cons_of_mem _ hnew, ?_⟩
      rcases hold with hl | hm
      · rw [lookup_append] at hl
        cases hm' : m.lookup e.name with
        | some v =>
          rw [hm', Option.or_some] at hl
          exact Or.inl hl
        | none =>
          rw [hm'] at hl
          by_cases hkk : e.name = k₀
          · subst hkk
            rw [lookup_singleton_self] at hl
            injection hl with hv
            subst hv
            exact Or.inr (List.mem_cons_self _ _)
          · rw [lookup_singleton_ne r₀ hkk] at hl
            exact Option.noConfusion hl
      · exact Or.inr (List.mem_cons_of_mem _ hm)
    | some r' =>
      by_cases hr : r' = r₀
      · subst hr
        rw [mergeDepsClass_cons_eq rest h₀] at h
        obtain ⟨hs, hnew, hold⟩ := ih _ _ h
        refine ⟨hs, List.mem_cons_of_mem _ hnew, ?_⟩
        rcases hold with hl | hm
        · exact Or.inl hl
        · exact Or.inr (List.mem_cons_of_mem _ hm)
      · rw [mergeDepsClass_cons_conflict rest h₀ hr] at h
        injection h with he
        subst he
        exact ⟨rfl, List.mem_cons_self _ _, Or.inl h₀⟩

theorem mergeDepsClass_nodupkeys (c : List (String × String)) :
    ∀ m m', mergeDepsClass m c = .ok m' →
      (m.map Prod.fst).Nodup → (m'.map Prod.fst).Nodup := by
  induction c with
  | nil =>
    intro m m' h nd
    cases h
    exact nd
  | cons p rest ih =>
    intro m m' h nd
    obtain ⟨k₀, r₀⟩ := p
    cases h₀ : m.lookup k₀ with
    | none =>
      rw [mergeDepsClass_cons_none rest h₀] at h
      apply ih _ _ h
      rw [List.map_append, List.nodup_append]
      refine ⟨nd, List.nodup_singleton _, ?_⟩
      intro a ha hb
      rcases List.mem_singleton.mp hb with h'
      subst h'
      have hsome : (m.lookup a).isSome = true := lookup_isSome_iff.mpr ha
      rw [h₀] at hsome
      exact Bool.noConfusion hsome
    | some r' =>
      by_cases hr : r' = r₀
      · subst hr
        rw [mergeDepsClass_cons_eq rest h₀] at h
        exact ih _ _ h nd
      · rw [mergeDepsClass_cons_conflict rest h₀ hr] at h
        exact Except.noConfusion h


/-! Generic lemmas on the in-place dictionary update map. -/

theorem lookup_mapUpdate_self {α β : Type} [BEq α] [LawfulBEq α]
    (l : List (α × β)) (k : α) (v : β) (h : (l.lookup k).isSome = true) :
    (l.map (fun p => if p.1 == k then (p.1, v) else p)).lookup k = some v := by
  induction l with
  | nil => simp [List.lookup] at h
  | cons p t ih =>
    obtain ⟨a, b⟩ := p
    by_cases hk : a = k
    · subst hk
      simp only [List.map_cons, beq_self_eq_true, if_pos]
      exact lookup_cons_self a v _
    · have hk' : k ≠ a := fun hx => hk hx.symm
      simp only [List.map_cons, beq_false_of_ne hk, Bool.false_eq_true, if_false]
      rw [lookup_cons_ne _ _ hk']
      rw [lookup_cons_ne _ _ hk'] at h
      exact ih h

theorem lookup_mapUpdate_ne {α β : Type} [BEq α] [LawfulBEq α]
    (l : List (α × β)) (k k' : α) (v : β) (h : k' ≠ k) :
    (l.map (fun p => if p.1 == k then (p.1, v) else p)).lookup k' = l.lookup k' := by
  induction l with
  | nil => rfl
  | cons p t ih =>
    obtain ⟨a, b⟩ := p
    by_cases ha : a = k
    · subst ha
      simp only [List.map_cons, beq_self_eq_true, if_pos]
      rw [lookup_cons_ne _ _ h, lookup_cons_ne _ _ h]
      exact ih
    · simp only [List.map_cons, beq_false_of_ne ha, Bool.false_eq_true, if_false]
      by_cases hk' : k' = a
      · subst hk'
        rw [lookup_cons_self, lookup_cons_self]
      · rw [lookup_cons_ne _ _ hk', lookup_cons_ne _ _ hk']
        exact ih

theorem mapUpdate_id {α β : Type} [BEq α] [LawfulBEq α]
    (l : List (α × β)) (k : α) (v : β) (h : ∀ p ∈ l, p.1 = k → p.2 = v) :
    l.map (fun p => if p.1 == k then (p.1, v) else p) = l := by
  induction l with
  | nil => rfl
  | cons p t ih =>
    obtain ⟨a, b⟩ := p
    by_cases ha : a = k
    · subst ha
      have hb : b = v := h (a, b) (List.mem_cons_self _ _) rfl
      subst hb
      simp only [List.map_cons, beq_self_eq_true, if_pos]
      rw [ih (fun p hp hk => h p (List.mem_cons_of_mem _ hp) hk)]
    · simp only [List.map_cons, beq_false_of_ne ha, Bool.false_eq_true, if_false]
      rw [ih (fun p hp hk => h p (List.mem_cons_of_mem _ hp) hk)]

/-! Lemmas on `setdefault`, `merge_deps_key` and `merge_deps`. -/

theorem setdefault_of_isSome {m : Manifest} {k : String} (v : MVal)
    (h : (m.lookup k).isSome = true) : setdefault m k v = m := by
  rw [setdefault, if_pos h]

theorem setdefault_of_none {m : Manifest} {k : String} (v : MVal)
    (h : m.lookup k = none) : setdefault m k v = m ++ [(k, v)] := by
  rw [setdefault, if_neg (by simp [h])]

theorem merge_deps_key_of_depsMap {p : Manifest} {key : String}
    {m : List (String × String)} (c : List (String × String))
    (h : p.lookup key = some (.depsMap m)) :
    merge_deps_key p key c =
      match mergeDepsClass m c with
      | .ok m2 => .ok (updateVal p key (.depsMap m2))
      | .error e => .error (.conflict e) := by
  rw [merge_deps_key]
  rw [setdefault_of_isSome _ (by simp [h])]
  rw [h]

theorem merge_deps_key_of_other {p : Manifest} {key : String} {v : String}
    (c : List (String × String)) (h : p.lookup key = some (.other v)) :
    merge_deps_key p key c = .error (.notObject key) := by
  rw [merge_deps_key]
  rw [setdefault_of_isSome _ (by simp [h])]
  rw [h]

theorem merge_deps_key_of_none {p : Manifest} {key : String}
    (c : List (String × String)) (h : p.lookup key = none) :
    merge_deps_key p key c =
      match mergeDepsClass [] c with
      | .ok m2 => .ok (updateVal (p ++ [(key, .depsMap [])]) key (.depsMap m2))
      | .error e => .error (.conflict e) := by
  rw [merge_deps_key]
  rw [setdefault_of_none _ h]
  rw [show (p ++ [(key, MVal.depsMap [])]).lookup key = some (.depsMap []) by
    rw [lookup_append, h, lookup_singleton_self]
    rfl]

theorem merge_deps_key_frame {p : Manifest} {key : String}
    {c : List (String × String)} {p' : Manifest}
    (h : merge_deps_key p key c = .ok p') :
    ∀ k, k ≠ key → p'.lookup k = p.lookup k := by
  intro k hk
  cases hp : p.lookup key with
  | none =>
    rw [merge_deps_key_of_none c hp] at h
    cases hm : mergeDepsClass [] c with
    | error e =>
      rw [hm] at h
      exact Except.noConfusion h
    | ok m2 =>
      rw [hm] at h
      injection h with h'
      subst h'
      rw [updateVal, lookup_mapUpdate_ne _ _ _ _ hk, lookup_append,
        lookup_singleton_ne _ hk, Option.or_none]
  | some w =>
    cases w with
    | depsMap m =>
      rw [merge_deps_key_of_depsMap c hp] at h
      cases hm : mergeDepsClass m c with
      | error e =>
        rw [hm] at h
        exact Except.noConfusion h
      | ok m2 =>
        rw [hm] at h
        injection h with h'
        subst h'
        rw [updateVal, lookup_mapUpdate_ne _ _ _ _ hk]
    | other v =>
      rw [merge_deps_key_of_other c hp] at h
      exact Except.noConfusion h

theorem merge_deps_key_val {p : Manifest} {key : String}
    {c : List (String × String)} {p' : Manifest}
    (h : merge_deps_key p key c = .ok p') :
    ∃ m2, mergeDepsClass (baseClass p key) c = .ok m2
      ∧ p'.lookup key = some (.depsMap m2) := by
  cases hp : p.lookup key with
  | none =>
    rw [merge_deps_key_of_none c hp] at h
    cases hm : mergeDepsClass [] c with
    | error e =>
      rw [hm] at h
      exact Except.noConfusion h
    | ok m2 =>
      rw [hm] at h
      injection h with h'
      subst h'
      refine ⟨m2, by rw [baseClass, hp]; exact hm, ?_⟩
      rw [updateVal]
      apply lookup_mapUpdate_self
      rw [lookup_append, hp, lookup_singleton_self]
      rfl
  | some w =>
    cases w with
    | depsMap m =>
      rw [merge_deps_key_of_depsMap c hp] at h
      cases hm : mergeDepsClass m c with
      | error e =>
        rw [hm] at h
        exact Except.noConfusion h
      | ok m2 =>
        rw [hm] at h
        injection h with h'
        subst h'
        refine ⟨m2, by rw [baseClass, hp]; exact hm, ?_⟩
        rw [updateVal]
        apply lookup_mapUpdate_self
        rw [hp]
        rfl
    | other v =>
      rw [merge_deps_key_of_other c hp] at h
      exact Except.noConfusion h

theorem merge_deps_ok_then {p : Manifest} {d : Deps} {p' : Manifest}
    (h : merge_deps p d = .ok p') :
    ∃ p1 p2, merge_deps_key p "dependencies" d.dependencies = .ok p1
      ∧ merge_deps_key p1 "devDependencies" d.devDependencies = .ok p2
      ∧ merge_deps_key p2 "peerDependencies" d.peerDependencies = .ok p' := by
  rw [merge_deps] at h
  cases h1 : merge_deps_key p "dependencies" d.dependencies with
  | error e =>
    rw [h1] at h
    exact Except.noConfusion h
  | ok p1 =>
    rw [h1] at h
    rw [show ((Except.ok p1 : Except DepErr Manifest) >>= fun p1 => do
      let p2 ← merge_deps_key p1 "devDependencies" d.devDependencies
      merge_deps_key p2 "peerDependencies" d.peerDependencies)
      = (do
        let p2 ← merge_deps_key p1 "devDependencies" d.devDependencies
        merge_deps_key p2 "peerDependencies" d.peerDependencies) from rfl] at h
    cases h2 : merge_deps_key p1 "devDependencies" d.devDependencies with
    | error e =>
      rw [h2] at h
      exact Except.noConfusion h
    | ok p2 =>
      rw [h2] at h
      rw [show ((Except.ok p2 : Except DepErr Manifest) >>= fun p2 =>
        merge_deps_key p2 "peerDependencies" d.peerDependencies)
        = merge_deps_key p2 "peerDependencies" d.peerDependencies from rfl] at h
      exact ⟨p1, p2, rfl, h2, h⟩

/-! The shape of `merge_deps` on three-class accumulators. -/

theorem merge_deps_key_mkRes_dep (a b c x : List (String × String)) :
    merge_deps_key (mkRes a b c) "dependencies" x =
      match mergeDepsClass a x with
      | .ok m2 => .ok (mkRes m2 b c)
      | .error e => .error (.conflict e) := by
  rw [merge_deps_key_of_depsMap x
    (show (mkRes a b c).lookup "dependencies" = some (.depsMap a) from rfl)]
  cases hx : mergeDepsClass a x with
  | ok m2 => rfl
  | error e => rfl

theorem merge_deps_key_mkRes_dev (a b c x : List (String × String)) :
    merge_deps_key (mkRes a b c) "devDependencies" x =
      match mergeDepsClass b x with
      | .ok m2 => .ok (mkRes a m2 c)
      | .error e => .error (.conflict e) := by
  rw [merge_deps_key_of_depsMap x
    (show (mkRes a b c).lookup "devDependencies" = some (.depsMap b) from rfl)]
  cases hx : mergeDepsClass b x with
  | ok m2 => rfl
  | error e => rfl

theorem merge_deps_key_mkRes_peer (a b c x : List (String × String)) :
    merge_deps_key (mkRes a b c) "peerDependencies" x =
      match mergeDepsClass c x with
      | .ok m2 => .ok (mkRes a b m2)
      | .error e => .error (.conflict e) := by
  rw [merge_deps_key_of_depsMap x
    (show (mkRes a b c).lookup "peerDependencies" = some (.depsMap c) from rfl)]
  cases hx : mergeDepsClass c x with
  | ok m2 => rfl
  | error e => rfl

theorem merge_deps_mkRes (a b c : List (String × String)) (d : Deps) :
    merge_deps (mkRes a b c) d =
      match mergeDepsClass a d.dependencies with
      | .error e => .error (.conflict e)
      | .ok a' =>
        match mergeDepsClass b d.devDependencies with
        | .error e => .error (.conflict e)
        | .ok b' =>
          match mergeDepsClass c d.peerDependencies with
          | .error e => .error (.conflict e)
          | .ok c' => .ok (mkRes a' b' c') := by
  cases h1 : mergeDepsClass a d.dependencies with
  | error e =>
    simp only [merge_deps, merge_deps_key_mkRes_dep, h1]
    rfl
  | ok a' =>
    cases h2 : mergeDepsClass b d.devDependencies with
    | error e =>
      simp only [merge_deps, merge_deps_key_mkRes_dep, h1]
      simp only [show ((Except.ok (mkRes a' b c) : Except DepErr Manifest) >>= fun p1 => do
        let p2 ← merge_deps_key p1 "devDependencies" d.devDependencies
        merge_deps_key p2 "peerDependencies" d.peerDependencies)
        = (do
          let p2 ← merge_deps_key (mkRes a' b c) "devDependencies" d.devDependencies
          merge_deps_key p2 "peerDependencies" d.peerDependencies) from rfl]
      simp only [merge_deps_key_mkRes_dev, h2]
      rfl
    | ok b' =>
      cases h3 : mergeDepsClass c d.peerDependencies with
      | error e =>
        simp only [merge_deps, merge_deps_key_mkRes_dep, h1]
        simp only [show ((Except.ok (mkRes a' b c) : Except DepErr Manifest) >>= fun p1 => do
          let p2 ← merge_deps_key p1 "devDependencies" d.devDependencies
          merge_deps_key p2 "peerDependencies" d.peerDependencies)
          = (do
            let p2 ← merge_deps_key (mkRes a' b c) "devDependencies" d.devDependencies
            merge_deps_key p2 "peerDependencies" d.peerDependencies) from rfl]
        simp only [merge_deps_key_mkRes_dev, h2]
        simp only [show ((Except.ok (mkRes a' b' c) : Except DepErr Manifest) >>= fun p2 =>
          merge_deps_key p2 "peerDependencies" d.peerDependencies)
          = merge_deps_key (mkRes a' b' c) "peerDependencies" d.peerDependencies from rfl]
        simp only [merge_deps_key_mkRes_peer, h3]
      | ok c' =>
        simp only [merge_deps, merge_deps_key_mkRes_dep, h1]
        simp only [show ((Except.ok (mkRes a' b c) : Except DepErr Manifest) >>= fun p1 => do
          let p2 ← merge_deps_key p1 "devDependencies" d.devDependencies
          merge_deps_key p2 "peerDependencies" d.peerDependencies)
          = (do
            let p2 ← merge_deps_key (mkRes a' b c) "devDependencies" d.devDependencies
            merge_deps_key p2 "peerDependencies" d.peerDependencies) from rfl]
        simp only [merge_deps_key_mkRes_dev, h2]
        simp only [show ((Except.ok (mkRes a' b' c) : Except DepErr Manifest) >>= fun p2 =>
          merge_deps_key p2 "peerDependencies" d.peerDependencies)
          = merge_deps_key (mkRes a' b' c) "peerDependencies" d.peerDependencies from rfl]
        simp only [merge_deps_key_mkRes_peer, h3]

theorem depStep_mkRes (a b c : List (String × String)) (bb : Bundle) :
    depStep (mkRes a b c) bb =
      match mergeDepsClass a bb.dependencies.dependencies with
      | .error e => .error (.conflict { e with source := some bb.path })
      | .ok a' =>
        match mergeDepsClass b bb.dependencies.devDependencies with
        | .error e => .error (.conflict { e with source := some bb.path })
        | .ok b' =>
          match mergeDepsClass c bb.dependencies.peerDependencies with
          | .error e => .error (.conflict { e with source := some bb.path })
          | .ok c' => .ok (mkRes a' b' c') := by
  rw [depStep, merge_deps_mkRes]
  cases h1 : mergeDepsClass a bb.dependencies.dependencies with
  | error e => rfl
  | ok a' =>
    cases h2 : mergeDepsClass b bb.dependencies.devDependencies with
    | error e => rfl
    | ok b' =>
      cases h3 : mergeDepsClass c bb.dependencies.peerDependencies with
      | error e => rfl
      | ok c' => rfl

/-! Lemmas on the per-class fold. -/

theorem classFold_nil (f : Bundle → List (String × String))
    (acc : List (String × String)) : classFold f acc [] = .ok acc :=
  rfl

theorem classFold_cons_ok {f : Bundle → List (String × String)}
    {acc m1 : List (String × String)} {hb : Bundle} (bs : List Bundle)
    (h : mergeDepsClass acc (f hb) = .ok m1) :
    classFold f acc (hb :: bs) = classFold f m1 bs := by
  simp only [classFold, List.foldlM_cons, h]
  rfl

theorem classFold_cons_err {f : Bundle → List (String × String)}
    {acc : List (String × String)} {hb : Bundle} {e : DepConflict} (bs : List Bundle)
    (h : mergeDepsClass acc (f hb) = .error e) :
    classFold f acc (hb :: bs) = .error e := by
  simp only [classFold, List.foldlM_cons, h]
  rfl

theorem depFold_ok_then (bs : List Bundle) :
    ∀ a b c out, bs.foldlM depStep (mkRes a b c) = .ok out →
      ∃ a' b' c', out = mkRes a' b' c'
        ∧ classFold (fun bb => bb.dependencies.dependencies) a bs = .ok a'
        ∧ classFold (fun bb => bb.dependencies.devDependencies) b bs = .ok b'
        ∧ classFold (fun bb => bb.dependencies.peerDependencies) c bs = .ok c' := by
  induction bs with
  | nil =>
    intro a b c out h
    cases h
    exact ⟨a, b, c, rfl, rfl, rfl, rfl⟩
  | cons bb t ih =>
    intro a b c out h
    rw [List.foldlM_cons, depStep_mkRes] at h
    cases h1 : mergeDepsClass a bb.dependencies.dependencies with
    | error e =>
      rw [h1] at h
      exact Except.noConfusion h
    | ok a1 =>
      rw [h1] at h
      cases h2 : mergeDepsClass b bb.dependencies.devDependencies with
      | error e =>
        rw [h2] at h
        exact Except.noConfusion h
      | ok b1 =>
        rw [h2] at h
        cases h3 : mergeDepsClass c bb.dependencies.peerDependencies with
        | error e =>
          rw [h3] at h
          exact Except.noConfusion h
        | ok c1 =>
          rw [h3] at h
          rw [show ((Except.ok (mkRes a1 b1 c1) : Except DepErr Manifest) >>= fun init =>
            List.foldlM depStep init t) = List.foldlM depStep (mkRes a1 b1 c1) t from rfl] at h
          obtain ⟨a', b', c', hout, hc1, hc2, hc3⟩ := ih a1 b1 c1 out h
          exact ⟨a', b', c', hout,
            (classFold_cons_ok t h1).trans hc1,
            (classFold_cons_ok t h2).trans hc2,
            (classFold_cons_ok t h3).trans hc3⟩

theorem depFold_ok_of (bs : List Bundle) :
    ∀ a b c a' b' c',
      classFold (fun bb => bb.dependencies.dependencies) a bs = .ok a' →
      classFold (fun bb => bb.dependencies.devDependencies) b bs = .ok b' →
      classFold (fun bb => bb.dependencies.peerDependencies) c bs = .ok c' →
      bs.foldlM depStep (mkRes a b c) = .ok (mkRes a' b' c') := by
  induction bs with
  | nil =>
    intro a b c a' b' c' h1 h2 h3
    cases h1
    cases h2
    cases h3
    rfl
  | cons bb t ih =>
    intro a b c a' b' c' h1 h2 h3
    cases hm1 : mergeDepsClass a bb.dependencies.dependencies with
    | error e =>
      rw [classFold_cons_err t hm1] at h1
      exact Except.noConfusion h1
    | ok a1 =>
      cases hm2 : mergeDepsClass b bb.dependencies.devDependencies with
      | error e =>
        rw [classFold_cons_err t hm2] at h2
        exact Except.noConfusion h2
      | ok b1 =>
        cases hm3 : mergeDepsClass c bb.dependencies.peerDependencies with
        | error e =>
          rw [classFold_cons_err t hm3] at h3
          exact Except.noConfusion h3
        | ok c1 =>
          rw [classFold_cons_ok t hm1] at h1
          rw [classFold_cons_ok t hm2] at h2
          rw [classFold_cons_ok t hm3] at h3
          rw [List.foldlM_cons, depStep_mkRes, hm1, hm2, hm3]
          rw [show ((Except.ok (mkRes a1 b1 c1) : Except DepErr Manifest) >>= fun init =>
            List.foldlM depStep init t) = List.foldlM depStep (mkRes a1 b1 c1) t from rfl]
          exact ih a1 b1 c1 a' b' c' h1 h2 h3

theorem depFold_err_then (bs : List Bundle) :
    ∀ a b c e, bs.foldlM depStep (mkRes a b c) = .error e →
      ∃ cc, e = DepErr.conflict cc ∧ ∃ bb ∈ bs, cc.source = some bb.path := by
  induction bs with
  | nil =>
    intro a b c e h
    cases h
  | cons bb t ih =>
    intro a b c e h
    rw [List.foldlM_cons, depStep_mkRes] at h
    cases h1 : mergeDepsClass a bb.dependencies.dependencies with
    | error e' =>
      rw [h1] at h
      have h' : (Except.error (DepErr.conflict { e' with source := some bb.path }) :
          Except DepErr Manifest) = Except.error e := h
      injection h' with he
      subst he
      exact ⟨_, rfl, bb, List.mem_cons_self _ _, rfl⟩
    | ok a1 =>
      rw [h1] at h
      cases h2 : mergeDepsClass b bb.dependencies.devDependencies with
      | error e' =>
        rw [h2] at h
        have h' : (Except.error (DepErr.conflict { e' with source := some bb.path }) :
            Except DepErr Manifest) = Except.error e := h
        injection h' with he
        subst he
        exact ⟨_, rfl, bb, List.mem_cons_self _ _, rfl⟩
      | ok b1 =>
        rw [h2] at h
        cases h3 : mergeDepsClass c bb.dependencies.peerDependencies with
        | error e' =>
          rw [h3] at h
          have h' : (Except.error (DepErr.conflict { e' with source := some bb.path }) :
              Except DepErr Manifest) = Except.error e := h
          injection h' with he
          subst he
          exact ⟨_, rfl, bb, List.mem_cons_self _ _, rfl⟩
        | ok c1 =>
          rw [h3] at h
          rw [show ((Except.ok (mkRes a1 b1 c1) : Except DepErr Manifest) >>= fun init =>
            List.foldlM depStep init t) = List.foldlM depStep (mkRes a1 b1 c1) t from rfl] at h
          obtain ⟨cc, he, bb', hbb', hsrc⟩ := ih a1 b1 c1 e h
          exact ⟨cc, he, bb', List.mem_cons_of_mem _ hbb', hsrc⟩

theorem dependencies_ok_then {bs : List Bundle} {out : Manifest}
    (h : dependencies bs = .ok out) :
    ∃ a' b' c', out = mkRes a' b' c'
      ∧ classFold (fun bb => bb.dependencies.dependencies) [] bs = .ok a'
      ∧ classFold (fun bb => bb.dependencies.devDependencies) [] bs = .ok b'
      ∧ classFold (fun bb => bb.dependencies.peerDependencies) [] bs = .ok c' :=
  depFold_ok_then bs [] [] [] out h

theorem dependencies_ok_of {bs : List Bundle} {a' b' c' : List (String × String)}
    (h1 : classFold (fun bb => bb.dependencies.dependencies) [] bs = .ok a')
    (h2 : classFold (fun bb => bb.dependencies.devDependencies) [] bs = .ok b')
    (h3 : classFold (fun bb => bb.dependencies.peerDependencies) [] bs = .ok c') :
    dependencies bs = .ok (mkRes a' b' c') :=
  depFold_ok_of bs [] [] [] a' b' c' h1 h2 h3

theorem dependencies_err_then {bs : List Bundle} {e : DepErr}
    (h : dependencies bs = .error e) :
    ∃ cc, e = DepErr.conflict cc ∧ ∃ bb ∈ bs, cc.source = some bb.path :=
  depFold_err_then bs [] [] [] e h

theorem merge_deps_key_err_conflict {p : Manifest} {key : String}
    {c : List (String × String)} {e : DepConflict}
    (h : merge_deps_key p key c = .error (.conflict e)) : e.source = none := by
  cases hp : p.lookup key with
  | none =>
    rw [merge_deps_key_of_none c hp] at h
    cases hm : mergeDepsClass [] c with
    | ok m2 =>
      rw [hm] at h
      exact Except.noConfusion h
    | error e' =>
      rw [hm] at h
      injection h with h'
      injection h' with h''
      subst h''
      exact (mergeDepsClass_err_then c [] e' hm).1
  | some w =>
    cases w with
    | depsMap m =>
      rw [merge_deps_key_of_depsMap c hp] at h
      cases hm : mergeDepsClass m c with
      | ok m2 =>
        rw [hm] at h
        exact Except.noConfusion h
      | error e' =>
        rw [hm] at h
        injection h with h'
        injection h' with h''
        subst h''
        exact (mergeDepsClass_err_then c m e' hm).1
    | other v =>
      rw [merge_deps_key_of_other c hp] at h
      injection h with h'
      exact DepErr.noConfusion h'

theorem merge_deps_err_conflict {p : Manifest} {d : Deps} {e : DepConflict}
    (h : merge_deps p d = .error (.conflict e)) : e.source = none := by
  rw [merge_deps] at h
  cases h1 : merge_deps_key p "dependencies" d.dependencies with
  | error e1 =>
    rw [h1] at h
    have h' : (Except.error e1 : Except DepErr Manifest) = .error (.conflict e) := h
    injection h' with he
    subst he
    exact merge_deps_key_err_conflict h1
  | ok p1 =>
    rw [h1] at h
    rw [show ((Except.ok p1 : Except DepErr Manifest) >>= fun p1 => do
      let p2 ← merge_deps_key p1 "devDependencies" d.devDependencies
      merge_deps_key p2 "peerDependencies" d.peerDependencies)
      = (do
        let p2 ← merge_deps_key p1 "devDependencies" d.devDependencies
        merge_deps_key p2 "peerDependencies" d.peerDependencies) from rfl] at h
    cases h2 : merge_deps_key p1 "devDependencies" d.devDependencies with
    | error e2 =>
      rw [h2] at h
      have h' : (Except.error e2 : Except DepErr Manifest) = .error (.conflict e) := h
      injection h' with he
      subst he
      exact merge_deps_key_err_conflict h2
    | ok p2 =>
      rw [h2] at h
      rw [show ((Except.ok p2 : Except DepErr Manifest) >>= fun p2 =>
        merge_deps_key p2 "peerDependencies" d.peerDependencies)
        = merge_deps_key p2 "peerDependencies" d.peerDependencies from rfl] at h
      exact merge_deps_key_err_conflict h

/-- C9: whenever `package_json` succeeds, the emitted manifest agrees with the
base `package.json` on every key other than the three dependency classes, and
each dependency class holds exactly the merge of the base manifest's class
dictionary with the accumulated bundle dependencies. -/
theorem c9_package_json_frame (source : Manifest) (bs : List Bundle) (pkg : Manifest)
    (h : package_json source bs = .ok pkg) :
    (∀ k, k ≠ "dependencies" → k ≠ "devDependencies" → k ≠ "peerDependencies" →
        pkg.lookup k = source.lookup k)
    ∧ ∃ d, dependencies bs = .ok d
      ∧ (∃ m1, mergeDepsClass (baseClass source "dependencies") (toDeps d).dependencies
            = .ok m1 ∧ pkg.lookup "dependencies" = some (.depsMap m1))
      ∧ (∃ m2, mergeDepsClass (baseClass source "devDependencies") (toDeps d).devDependencies
            = .ok m2 ∧ pkg.lookup "devDependencies" = some (.depsMap m2))
      ∧ (∃ m3, mergeDepsClass (baseClass source "peerDependencies") (toDeps d).peerDependencies
            = .ok m3 ∧ pkg.lookup "peerDependencies" = some (.depsMap m3)) := by
  rw [package_json] at h
  cases hd : dependencies bs with
  | error e =>
    rw [hd] at h
    exact Except.noConfusion h
  | ok d =>
    rw [hd] at h
    rw [show ((Except.ok d : Except DepErr Manifest) >>= fun deps =>
      merge_deps source (toDeps deps)) = merge_deps source (toDeps d) from rfl] at h
    obtain ⟨p1, p2, h1, h2, h3⟩ := merge_deps_ok_then h
    have f1 := merge_deps_key_frame h1
    have f2 := merge_deps_key_frame h2
    have f3 := merge_deps_key_frame h3
    obtain ⟨m1, hm1, hv1⟩ := merge_deps_key_val h1
    obtain ⟨m2, hm2, hv2⟩ := merge_deps_key_val h2
    obtain ⟨m3, hm3, hv3⟩ := merge_deps_key_val h3
    refine ⟨?_, d, rfl, ?_, ?_, ?_⟩
    · intro k hk1 hk2 hk3
      rw [f3 k hk3, f2 k hk2, f1 k hk1]
    · refine ⟨m1, hm1, ?_⟩
      rw [f3 "dependencies" (by decide), f2 "dependencies" (by decide), hv1]
    · have hb2 : baseClass p1 "devDependencies" = baseClass source "devDependencies" := by
        rw [baseClass, baseClass, f1 "devDependencies" (by decide)]
      rw [hb2] at hm2
      refine ⟨m2, hm2, ?_⟩
      rw [f3 "devDependencies" (by decide), hv2]
    · have hb3 : baseClass p2 "peerDependencies" = baseClass source "peerDependencies" := by
        rw [baseClass, baseClass, f2 "peerDependencies" (by decide),
          f1 "peerDependencies" (by decide)]
      rw [hb3] at hm3
      exact ⟨m3, hm3, hv3⟩

/-- C9 witness: a concrete base manifest with a non-dependency key `name` and
one bundle contributing a fresh package; the resulting manifest keeps `name`
unchanged, which the claim theorem confirms at this input. -/
theorem c9_package_json_frame_witness :
    package_json
        [("name", .other "myproj"), ("dependencies", .depsMap [("lodash", "^4.0.0")])]
        [⟨"/p/a", [], [], [], ⟨[("react", "^17.0.0")], [], []⟩⟩]
      = .ok [("name", .other "myproj"),
             ("dependencies", .depsMap [("lodash", "^4.0.0"), ("react", "^17.0.0")]),
             ("devDependencies", .depsMap []), ("peerDependencies", .depsMap [])]
    ∧ ([("name", .other "myproj"),
        ("dependencies", .depsMap [("lodash", "^4.0.0"), ("react", "^17.0.0")]),
        ("devDependencies", .depsMap []), ("peerDependencies", .depsMap [])] :
          Manifest).lookup "name"
      = ([("name", .other "myproj"), ("dependencies", .depsMap [("lodash", "^4.0.0")])] :
          Manifest).lookup "name" :=
  ⟨rfl,
   (c9_package_json_frame
      [("name", .other "myproj"), ("dependencies", .depsMap [("lodash", "^4.0.0")])]
      [⟨"/p/a", [], [], [], ⟨[("react", "^17.0.0")], [], []⟩⟩] _ rfl).1
     "name" (by decide) (by decide) (by decide)⟩

/-- C3 (amended): the dependency merge folds the bundles, in list order, into
an initially empty accumulator, and any conflict raised there is re-annotated
with the path of the (second) contributing bundle; the accumulated result is
only then merged into the base manifest, and a conflict against the base
manifest propagates with the package name and both version-range strings but
with NO bundle-path annotation. -/
theorem c3_dependency_conflict_attribution (source : Manifest) (bs : List Bundle) :
    (∀ e, dependencies bs = .error e →
        ∃ cc, e = DepErr.conflict cc ∧ ∃ b ∈ bs, cc.source = some b.path)
    ∧ (∀ d e, dependencies bs = .ok d →
        merge_deps source (toDeps d) = .error (.conflict e) →
        package_json source bs = .error (.conflict e) ∧ e.source = none) := by
  constructor
  · intro e h
    exact dependencies_err_then h
  · intro d e hd hm
    constructor
    · rw [package_json, hd]
      rw [show ((Except.ok d : Except DepErr Manifest) >>= fun deps =>
        merge_deps source (toDeps deps)) = merge_deps source (toDeps d) from rfl]
      exact hm
    · exact merge_deps_err_conflict hm

/-- C3 witness: a conflict between two bundles is annotated with the second
bundle's path, while a conflict between the base manifest and the accumulated
bundle dependencies is raised by `package_json` with no bundle annotation;
both inner hypotheses of the claim theorem are discharged concretely. -/
theorem c3_dependency_conflict_attribution_witness :
    (dependencies
        [⟨"/bundles/a", [], [], [], ⟨[("lodash", "^4.0.0")], [], []⟩⟩,
         ⟨"/bundles/b", [], [], [], ⟨[("lodash", "^3.0.0")], [], []⟩⟩]
      = .error (.conflict ⟨"lodash", "^4.0.0", "^3.0.0", some "/bundles/b"⟩))
    ∧ (∃ cc, (DepErr.conflict ⟨"lodash", "^4.0.0", "^3.0.0", some "/bundles/b"⟩)
          = DepErr.conflict cc
        ∧ ∃ b ∈ ([⟨"/bundles/a", [], [], [], ⟨[("lodash", "^4.0.0")], [], []⟩⟩,
                  ⟨"/bundles/b", [], [], [], ⟨[("lodash", "^3.0.0")], [], []⟩⟩] : List Bundle),
            cc.source = some b.path)
    ∧ (package_json [("dependencies", .depsMap [("lodash", "^4.0.0")])]
          [⟨"/bundles/b", [], [], [], ⟨[("lodash", "^3.0.0")], [], []⟩⟩]
        = .error (.conflict ⟨"lodash", "^4.0.0", "^3.0.0", none⟩)
      ∧ (⟨"lodash", "^4.0.0", "^3.0.0", none⟩ : DepConflict).source = none) :=
  ⟨rfl,
   (c3_dependency_conflict_attribution [] _).1 _ rfl,
   (c3_dependency_conflict_attribution
      [("dependencies", .depsMap [("lodash", "^4.0.0")])]
      [⟨"/bundles/b", [], [], [], ⟨[("lodash", "^3.0.0")], [], []⟩⟩]).2
     (mkRes [("lodash", "^3.0.0")] [] []) _ rfl rfl⟩

/-- C7: the per-pair rule of the dependency-class merge — on success the
result looks up to the accumulator's binding first and otherwise to the
contribution's first binding (so an absent name is inserted); a contribution
already present with identical version-range strings is a literal no-op
returning the accumulator unchanged; a contribution whose name is present
with a different version-range string makes the merge fail; and every raised
error carries the package name with both version ranges and no source
annotation. -/
theorem c7_dependency_pair_rule (m c : List (String × String)) :
    (∀ m', mergeDepsClass m c = .ok m' →
        ∀ k, m'.lookup k = (m.lookup k).or (c.lookup k))
    ∧ ((∀ p ∈ c, m.lookup p.1 = some p.2) → mergeDepsClass m c = .ok m)
    ∧ (∀ k r r', (k, r) ∈ c → m.lookup k = some r' → r' ≠ r →
        (mergeDepsClass m c).isOk = false)
    ∧ (∀ e, mergeDepsClass m c = .error e →
        e.source = none ∧ (e.name, e.newRange) ∈ c
          ∧ (m.lookup e.name = some e.oldRange ∨ (e.name, e.oldRange) ∈ c)) := by
  refine ⟨fun m' h => mergeDepsClass_ok_lookup c m m' h, mergeDepsClass_noop c m, ?_,
    fun e h => mergeDepsClass_err_then c m e h⟩
  intro k r r' hmem hm hne
  cases hmc : mergeDepsClass m c with
  | error e => rfl
  | ok m' =>
    have hr : m'.lookup k = some r := mergeDepsClass_mem_lookup c m m' hmc k r hmem
    have hr' : m'.lookup k = some r' := mergeDepsClass_stable hmc hm
    rw [hr] at hr'
    injection hr' with hx
    exact absurd hx.symm hne

/-- C7 witness: inserting an absent package, the no-op on an identical
re-contribution, and the failure on a differing range, all at concrete
dictionaries through the claim theorem. -/
theorem c7_dependency_pair_rule_witness :
    (mergeDepsClass [("lodash", "^4.0.0")] [("react", "^17.0.0")]
        = .ok [("lodash", "^4.0.0"), ("react", "^17.0.0")])
    ∧ ([("lodash", "^4.0.0"), ("react", "^17.0.0")] : List (String × String)).lookup "react"
        = (([("lodash", "^4.0.0")] : List (String × String)).lookup "react").or
            (([("react", "^17.0.0")] : List (String × String)).lookup "react")
    ∧ mergeDepsClass [("lodash", "^4.0.0")] [("lodash", "^4.0.0")]
        = .ok [("lodash", "^4.0.0")]
    ∧ (mergeDepsClass [("lodash", "^4.0.0")] [("lodash", "^3.0.0")]).isOk = false :=
  ⟨rfl,
   (c7_dependency_pair_rule [("lodash", "^4.0.0")] [("react", "^17.0.0")]).1 _ rfl "react",
   (c7_dependency_pair_rule [("lodash", "^4.0.0")] [("lodash", "^4.0.0")]).2.1
     (by decide),
   (c7_dependency_pair_rule [("lodash", "^4.0.0")] [("lodash", "^3.0.0")]).2.2.1
     "lodash" "^3.0.0" "^4.0.0" (by decide) (by decide) (by decide)⟩

/-- C4 (amended): relative copy `from`/`to` paths are resolved against the
directory part of the config-file path exactly as the claim's formula says
(third conjunct, definitional in `copy`); but relative ALLOWED ROOTS are
joined onto the config-file path itself, without taking its directory part —
this agrees with the claim's formula precisely when the config path is not an
existing file, and differs from it whenever the config path is a file with at
least one segment. -/
theorem c4_resolution_bases (isFile : PPath → Bool) (config_path : PPath) :
    (isFile config_path = false →
      ∀ roots, allowed_copy_paths config_path roots
        = roots.map (specResolveRoot isFile config_path))
    ∧ (isFile config_path = true → config_path.parts ≠ [] →
      ∀ r, r.absolute = false →
        allowed_copy_paths config_path [r]
          ≠ [specResolveRoot isFile config_path r])
    ∧ (∀ p, get_dir_path isFile ((get_dir_path isFile config_path).joinpath p)
        = specResolveCopyDir isFile config_path p) := by
  refine ⟨?_, ?_, fun p => rfl⟩
  · intro hnf roots
    rw [allowed_copy_paths]
    apply List.map_congr_left
    intro r _
    by_cases habs : r.absolute = true
    · rw [if_pos habs, specResolveRoot, if_pos habs]
    · rw [if_neg habs, specResolveRoot, if_neg habs, get_dir_path,
        if_neg (by simp [hnf])]
  · intro hf hne r habs
    have h1 : allowed_copy_paths config_path [r] = [config_path.joinpath r] := by
      simp [allowed_copy_paths, habs]
    have h2 : specResolveRoot isFile config_path r
        = (config_path.parent).joinpath r := by
      rw [specResolveRoot, if_neg (by simp [habs]), get_dir_path, if_pos hf]
    rw [h1, h2]
    intro heq
    injection heq with hh
    have hp : (config_path.joinpath r).parts = (config_path.parent.joinpath r).parts :=
      congrArg PPath.parts hh
    rw [PPath.joinpath, if_neg (by simp [habs]), PPath.joinpath,
      if_neg (by simp [habs])] at hp
    have hlen := congrArg List.length hp
    simp only [List.length_append, List.length_dropLast, PPath.parent] at hlen
    have hpos : 0 < config_path.parts.length := List.length_pos.mpr hne
    omega

/-- C4 witness: with a config path that is not an existing file, a mixed list
of one absolute and one relative root resolves per the claim's formula. -/
theorem c4_resolution_bases_witness :
    (fun (_ : PPath) => false) ⟨true, ["proj", "config.json"]⟩ = false
    ∧ allowed_copy_paths ⟨true, ["proj", "config.json"]⟩
        [⟨true, ["opt", "static"]⟩, ⟨false, ["static"]⟩]
      = [⟨true, ["opt", "static"]⟩, ⟨false, ["static"]⟩].map
          (specResolveRoot (fun _ => false) ⟨true, ["proj", "config.json"]⟩) :=
  ⟨rfl,
   (c4_resolution_bases (fun _ => false) ⟨true, ["proj", "config.json"]⟩).1 rfl
     [⟨true, ["opt", "static"]⟩, ⟨false, ["static"]⟩]⟩

/-! Lemmas on the config-dictionary update. -/

theorem lookup_setOrAppend_self (d : ConfigDict) (k : String) (v : CVal) :
    (setOrAppend d k v).lookup k = some v := by
  rw [setOrAppend]
  by_cases h : (d.lookup k).isSome = true
  · rw [if_pos h]
    exact lookup_mapUpdate_self d k v h
  · rw [if_neg h]
    rw [lookup_append]
    rw [Option.not_isSome_iff_eq_none.mp h, lookup_singleton_self]
    rfl

theorem lookup_setOrAppend_ne (d : ConfigDict) (k k' : String) (v : CVal)
    (h : k' ≠ k) : (setOrAppend d k v).lookup k' = d.lookup k' := by
  rw [setOrAppend]
  by_cases hs : (d.lookup k).isSome = true
  · rw [if_pos hs]
    exact lookup_mapUpdate_ne d k k' v h
  · rw [if_neg hs]
    rw [lookup_append, lookup_singleton_ne _ h, Option.or_none]

theorem setOrAppend_invariant (d : ConfigDict) (k : String) (v : CVal) :
    ∀ p ∈ setOrAppend d k v, p.1 = k → p.2 = v := by
  intro p hp hk
  rw [setOrAppend] at hp
  by_cases hs : (d.lookup k).isSome = true
  · rw [if_pos hs] at hp
    obtain ⟨q, hq, hq'⟩ := List.mem_map.mp hp
    by_cases hqk : (q.1 == k) = true
    · rw [if_pos hqk] at hq'
      rw [← hq']
    · rw [if_neg hqk] at hq'
      subst hq'
      exact absurd (beq_iff_eq.mpr hk) hqk
  · rw [if_neg hs] at hp
    rcases List.mem_append.mp hp with hd | hone
    · exfalso
      apply lookup_eq_none_iff.mp (Option.not_isSome_iff_eq_none.mp hs) p.2
      rw [← hk]
      exact hd
    · rcases List.mem_singleton.mp hone with h'
      rw [h']

theorem setOrAppend_pres_invariant (d : ConfigDict) (k k' : String) (v v' : CVal)
    (hne : k ≠ k') (h : ∀ p ∈ d, p.1 = k → p.2 = v) :
    ∀ p ∈ setOrAppend d k' v', p.1 = k → p.2 = v := by
  intro p hp hk
  rw [setOrAppend] at hp
  by_cases hs : (d.lookup k').isSome = true
  · rw [if_pos hs] at hp
    obtain ⟨q, hq, hq'⟩ := List.mem_map.mp hp
    by_cases hqk : (q.1 == k') = true
    · rw [if_pos hqk] at hq'
      exfalso
      apply hne
      rw [← hk, ← hq']
      exact (beq_iff_eq.mp hqk).symm ▸ rfl
    · rw [if_neg hqk] at hq'
      subst hq'
      exact h q hq hk
  · rw [if_neg hs] at hp
    rcases List.mem_append.mp hp with hd | hone
    · exact h p hd hk
    · rcases List.mem_singleton.mp hone with h'
      subst h'
      exact absurd hk.symm hne

theorem setOrAppend_isSome_pres (d : ConfigDict) (k k' : String) (v' : CVal)
    (h : (d.lookup k).isSome = true) :
    ((setOrAppend d k' v').lookup k).isSome = true := by
  by_cases hk : k = k'
  · subst hk
    rw [lookup_setOrAppend_self]
    rfl
  · rw [lookup_setOrAppend_ne _ _ _ _ hk]
    exact h

theorem setOrAppend_id (d : ConfigDict) (k : String) (v : CVal)
    (hsome : (d.lookup k).isSome = true) (hinv : ∀ p ∈ d, p.1 = k → p.2 = v) :
    setOrAppend d k v = d := by
  rw [setOrAppend, if_pos hsome]
  exact mapUpdate_id d k v hinv

theorem configDictUpdate_idem (d : ConfigDict) (e a : List (String × String))
    (c : List CopyInstr) :
    configDictUpdate (configDictUpdate d e a c) e a c = configDictUpdate d e a c := by
  have d1inv_e : ∀ p ∈ configDictUpdate d e a c, p.1 = "entry" → p.2 = .entriesMap e := by
    apply setOrAppend_pres_invariant _ _ _ _ _ (by decide)
    apply setOrAppend_pres_invariant _ _ _ _ _ (by decide)
    exact setOrAppend_invariant _ _ _
  have d1inv_a : ∀ p ∈ configDictUpdate d e a c, p.1 = "aliases" → p.2 = .entriesMap a := by
    apply setOrAppend_pres_invariant _ _ _ _ _ (by decide)
    exact setOrAppend_invariant _ _ _
  have d1inv_c : ∀ p ∈ configDictUpdate d e a c, p.1 = "copy" → p.2 = .copyList c :=
    setOrAppend_invariant _ _ _
  have d1some_e : ((configDictUpdate d e a c).lookup "entry").isSome = true := by
    rw [configDictUpdate]
    apply setOrAppend_isSome_pres
    apply setOrAppend_isSome_pres
    rw [lookup_setOrAppend_self]
    rfl
  have d1some_a : ((configDictUpdate d e a c).lookup "aliases").isSome = true := by
    rw [configDictUpdate]
    apply setOrAppend_isSome_pres
    rw [lookup_setOrAppend_self]
    rfl
  have d1some_c : ((configDictUpdate d e a c).lookup "copy").isSome = true := by
    rw [configDictUpdate]
    rw [lookup_setOrAppend_self]
    rfl
  rw [configDictUpdate]
  rw [setOrAppend_id _ _ _ d1some_e d1inv_e]
  rw [setOrAppend_id _ _ _ d1some_a d1inv_a]
  rw [setOrAppend_id _ _ _ d1some_c d1inv_c]

theorem storeSet_self (σ : Store) (r : Nat) (d : ConfigDict) :
    storeSet σ r d r = d := by
  rw [storeSet]
  simp

theorem storeSet_ne (σ : Store) (r n : Nat) (d : ConfigDict) (h : n ≠ r) :
    storeSet σ r d n = σ n := by
  rw [storeSet]
  simp [h]

/-- C5: reading the bundle project's `config` property returns the caller's
own reference unchanged, while the dictionary stored behind that reference is
mutated in place — the keys `entry`, `aliases` and `copy` are inserted or
overwritten with the computed values, every other key keeps its value, and no
other reference in the store is touched. -/
theorem c5_config_mutates_caller_dict (σ : Store) (r : Nat)
    (e a : List (String × String)) (c : List CopyInstr) :
    (config_prop σ r e a c).2 = r
    ∧ ((config_prop σ r e a c).1 r).lookup "entry" = some (.entriesMap e)
    ∧ ((config_prop σ r e a c).1 r).lookup "aliases" = some (.entriesMap a)
    ∧ ((config_prop σ r e a c).1 r).lookup "copy" = some (.copyList c)
    ∧ (∀ k, k ≠ "entry" → k ≠ "aliases" → k ≠ "copy" →
        ((config_prop σ r e a c).1 r).lookup k = (σ r).lookup k)
    ∧ (∀ n, n ≠ r → (config_prop σ r e a c).1 n = σ n) := by
  refine ⟨rfl, ?_, ?_, ?_, ?_, ?_⟩
  · show (storeSet σ r (configDictUpdate (σ r) e a c) r).lookup "entry"
      = some (CVal.entriesMap e)
    rw [storeSet_self, configDictUpdate,
      lookup_setOrAppend_ne _ _ _ _ (by decide),
      lookup_setOrAppend_ne _ _ _ _ (by decide), lookup_setOrAppend_self]
  · show (storeSet σ r (configDictUpdate (σ r) e a c) r).lookup "aliases"
      = some (CVal.entriesMap a)
    rw [storeSet_self, configDictUpdate,
      lookup_setOrAppend_ne _ _ _ _ (by decide), lookup_setOrAppend_self]
  · show (storeSet σ r (configDictUpdate (σ r) e a c) r).lookup "copy"
      = some (CVal.copyList c)
    rw [storeSet_self, configDictUpdate, lookup_setOrAppend_self]
  · intro k h1 h2 h3
    show (storeSet σ r (configDictUpdate (σ r) e a c) r).lookup k = (σ r).lookup k
    rw [storeSet_self, configDictUpdate,
      lookup_setOrAppend_ne _ _ _ _ h3, lookup_setOrAppend_ne _ _ _ _ h2,
      lookup_setOrAppend_ne _ _ _ _ h1]
  · intro n hn
    show storeSet σ r (configDictUpdate (σ r) e a c) n = σ n
    exact storeSet_ne σ r n _ hn

/-- C5 witness: a concrete caller dictionary with a pre-existing `debug` key
and a stale `entry` key; after reading `config` through reference `0`, the
same reference holds the overwritten `entry`, the new `aliases`/`copy` keys,
and the untouched `debug` key. -/
theorem c5_config_mutates_caller_dict_witness :
    (config_prop (fun _ => [("debug", CVal.other "true"), ("entry", CVal.other "stale")])
        0 [("main", "a.js")] [] []).2 = 0
    ∧ ((config_prop (fun _ => [("debug", CVal.other "true"), ("entry", CVal.other "stale")])
        0 [("main", "a.js")] [] []).1 0).lookup "entry"
      = some (.entriesMap [("main", "a.js")])
    ∧ ((config_prop (fun _ => [("debug", CVal.other "true"), ("entry", CVal.other "stale")])
        0 [("main", "a.js")] [] []).1 0).lookup "debug"
      = ((fun (_ : Nat) => [("debug", CVal.other "true"), ("entry", CVal.other "stale")]) 0).lookup "debug" :=
  ⟨(c5_config_mutates_caller_dict _ 0 _ [] []).1,
   (c5_config_mutates_caller_dict _ 0 _ [] []).2.1,
   (c5_config_mutates_caller_dict _ 0 _ [] []).2.2.2.2.1 "debug"
     (by decide) (by decide) (by decide)⟩

/-- C10: two consecutive invocations of the build against the same immutable
inputs — the second one seeing the config store as the first one left it —
return equal results (the same descriptor on success, the same error on
failure) and leave the store in the same state, because rewriting the same
entry/aliases/copy values into the config dictionary is idempotent. -/
theorem c10_build_idempotent (σ : Store) (r : Nat) (isFile : PPath → Bool)
    (config_path : PPath) (paths : List PPath) (source : Manifest)
    (bs : List Bundle) (o₁ o₂ : Except BuildErr Descriptor) (σ₁ σ₂ : Store)
    (h1 : buildRun σ r isFile config_path paths source bs = (o₁, σ₁))
    (h2 : buildRun σ₁ r isFile config_path paths source bs = (o₂, σ₂)) :
    o₂ = o₁ ∧ ∀ n, σ₂ n = σ₁ n := by
  cases hb : buildDescriptor isFile config_path paths source bs with
  | error e =>
    rw [buildRun, hb] at h1
    rw [buildRun, hb] at h2
    have h1' : ((Except.error e : Except BuildErr Descriptor), σ) = (o₁, σ₁) := h1
    injection h1' with ho1 hs1
    subst ho1
    subst hs1
    have h2' : ((Except.error e : Except BuildErr Descriptor), σ) = (o₂, σ₂) := h2
    injection h2' with ho2 hs2
    subst ho2
    subst hs2
    exact ⟨rfl, fun n => rfl⟩
  | ok D =>
    rw [buildRun, hb] at h1
    rw [buildRun, hb] at h2
    have h1' : ((Except.ok D : Except BuildErr Descriptor),
        storeSet σ r (configDictUpdate (σ r) D.entries D.aliases D.copy)) = (o₁, σ₁) := h1
    injection h1' with ho1 hs1
    subst ho1
    subst hs1
    have h2' : ((Except.ok D : Except BuildErr Descriptor),
        storeSet (storeSet σ r (configDictUpdate (σ r) D.entries D.aliases D.copy)) r
          (configDictUpdate
            ((storeSet σ r (configDictUpdate (σ r) D.entries D.aliases D.copy)) r)
            D.entries D.aliases D.copy)) = (o₂, σ₂) := h2
    injection h2' with ho2 hs2
    subst ho2
    subst hs2
    refine ⟨rfl, ?_⟩
    intro n
    by_cases hn : n = r
    · subst hn
      simp only [storeSet_self]
      rw [configDictUpdate_idem]
    · rw [storeSet_ne _ _ _ _ hn]

/-- C10 witness: a concrete double invocation on an empty bundle list; both
runs return the same descriptor and the store slot is unchanged by the second
run. -/
theorem c10_build_idempotent_witness :
    buildRun (fun _ => []) 0 (fun _ => false) ⟨true, ["p"]⟩ [] [] []
      = (Except.ok (⟨[], [], [], mkRes [] [] [],
          [("dependencies", MVal.depsMap []), ("devDependencies", MVal.depsMap []),
           ("peerDependencies", MVal.depsMap [])]⟩ : Descriptor),
         storeSet (fun _ => []) 0 (configDictUpdate [] [] [] []))
    ∧ buildRun (storeSet (fun _ => []) 0 (configDictUpdate [] [] [] [])) 0
        (fun _ => false) ⟨true, ["p"]⟩ [] [] []
      = (Except.ok (⟨[], [], [], mkRes [] [] [],
          [("dependencies", MVal.depsMap []), ("devDependencies", MVal.depsMap []),
           ("peerDependencies", MVal.depsMap [])]⟩ : Descriptor),
         storeSet (storeSet (fun _ => []) 0 (configDictUpdate [] [] [] [])) 0
           (configDictUpdate
             (storeSet (fun _ => []) 0 (configDictUpdate [] [] [] []) 0) [] [] []))
    ∧ ((Except.ok (⟨[], [], [], mkRes [] [] [],
          [("dependencies", MVal.depsMap []), ("devDependencies", MVal.depsMap []),
           ("peerDependencies", MVal.depsMap [])]⟩ : Descriptor) :
            Except BuildErr Descriptor)
        = Except.ok (⟨[], [], [], mkRes [] [] [],
          [("dependencies", MVal.depsMap []), ("devDependencies", MVal.depsMap []),
           ("peerDependencies", MVal.depsMap [])]⟩ : Descriptor)
      ∧ ∀ n, storeSet (storeSet (fun _ => []) 0 (configDictUpdate [] [] [] [])) 0
          (configDictUpdate
            (storeSet (fun _ => []) 0 (configDictUpdate [] [] [] []) 0) [] [] []) n
        = storeSet (fun _ => []) 0 (configDictUpdate [] [] [] []) n) :=
  ⟨rfl, rfl,
   c10_build_idempotent (fun _ => []) 0 (fun _ => false) ⟨true, ["p"]⟩ [] [] []
     _ _ _ _ rfl rfl⟩

/-! Permutation machinery: helpers on `Except` and on the per-class fold. -/

theorem except_isOk_exists {ε α : Type} {e : Except ε α} (h : e.isOk = true) :
    ∃ v, e = .ok v := by
  cases e with
  | ok v => exact ⟨v, rfl⟩
  | error err => simp [Except.isOk, Except.toBool] at h

theorem except_isOk_false_exists {ε α : Type} {e : Except ε α}
    (h : e.isOk = false) : ∃ err, e = .error err := by
  cases e with
  | ok v => simp [Except.isOk, Except.toBool] at h
  | error err => exact ⟨err, rfl⟩

theorem except_isOk_of_ok {ε α : Type} {e : Except ε α} {v : α} (h : e = .ok v) :
    e.isOk = true := by
  rw [h]
  rfl

theorem contribs_nil (f : Bundle → List (String × String)) (k : String) :
    contribs f k [] = [] :=
  rfl

theorem contribs_cons (f : Bundle → List (String × String)) (k : String)
    (b : Bundle) (bs : List Bundle) :
    contribs f k (b :: bs) =
      match (f b).lookup k with
      | some r => r :: contribs f k bs
      | none => contribs f k bs := by
  rw [contribs, List.filterMap_cons]
  cases (f b).lookup k with
  | some r => rfl
  | none => rfl

theorem classFold_ok_lookup (f : Bundle → List (String × String)) (bs : List Bundle) :
    ∀ acc m, classFold f acc bs = .ok m →
      ∀ k, m.lookup k = (acc.lookup k).or (contribs f k bs).head? := by
  induction bs with
  | nil =>
    intro acc m h k
    cases h
    simp [contribs]
  | cons b t ih =>
    intro acc m h k
    cases hm : mergeDepsClass acc (f b) with
    | error e =>
      rw [classFold_cons_err t hm] at h
      exact Except.noConfusion h
    | ok m1 =>
      rw [classFold_cons_ok t hm] at h
      rw [ih m1 m h k, mergeDepsClass_ok_lookup (f b) acc m1 hm k, Option.or_assoc,
        contribs_cons]
      cases hfb : (f b).lookup k with
      | some r => simp
      | none => simp

theorem classFold_stable {f : Bundle → List (String × String)} {bs : List Bundle}
    {acc m : List (String × String)} {k r : String}
    (h : classFold f acc bs = .ok m) (hacc : acc.lookup k = some r) :
    m.lookup k = some r := by
  rw [classFold_ok_lookup f bs acc m h k, hacc, Option.or_some]

theorem classFold_mem_lookup (f : Bundle → List (String × String)) (bs : List Bundle) :
    ∀ acc m, classFold f acc bs = .ok m →
      ∀ b ∈ bs, ∀ k r, (k, r) ∈ f b → m.lookup k = some r := by
  induction bs with
  | nil =>
    intro acc m _ b hb
    cases hb
  | cons b0 t ih =>
    intro acc m h b hb k r hkr
    cases hm : mergeDepsClass acc (f b0) with
    | error e =>
      rw [classFold_cons_err t hm] at h
      exact Except.noConfusion h
    | ok m1 =>
      rw [classFold_cons_ok t hm] at h
      rcases List.mem_cons.mp hb with h' | h'
      · subst h'
        exact classFold_stable h (mergeDepsClass_mem_lookup (f b) acc m1 hm k r hkr)
      · exact ih m1 m h b h' k r hkr

theorem classFold_ok_of (f : Bundle → List (String × String)) (bs : List Bundle) :
    ∀ acc, (∀ k r, acc.lookup k = some r → ∀ b ∈ bs, ∀ r', (k, r') ∈ f b → r' = r) →
      DepCompat f bs → (classFold f acc bs).isOk = true := by
  induction bs with
  | nil =>
    intro acc _ _
    rfl
  | cons b t ih =>
    intro acc hacc hcompat
    have h1 : ∀ k r, (k, r) ∈ f b → ∀ r', acc.lookup k = some r' → r' = r := by
      intro k r hkr r' hl
      exact (hacc k r' hl b (List.mem_cons_self _ _) r hkr).symm
    have h2 : ∀ k r r', (k, r) ∈ f b → (k, r') ∈ f b → r = r' :=
      fun k r r' ha hb =>
        hcompat b (List.mem_cons_self _ _) b (List.mem_cons_self _ _) k r r' ha hb
    obtain ⟨m1, hm1⟩ := except_isOk_exists
      (mergeDepsClass_ok_of (f b) acc (fun k r hkr r' hl => h1 k r hkr r' hl) h2)
    rw [classFold_cons_ok t hm1]
    apply ih m1
    · intro k r hl b' hb' r' hkr'
      rw [mergeDepsClass_ok_lookup (f b) acc m1 hm1 k] at hl
      cases hacc' : acc.lookup k with
      | some w =>
        rw [hacc', Option.or_some] at hl
        injection hl with hw
        subst hw
        exact hacc k w hacc' b' (List.mem_cons_of_mem _ hb') r' hkr'
      | none =>
        rw [hacc'] at hl
        have hl' : (f b).lookup k = some r := by
          cases hfb : (f b).lookup k with
          | none =>
            rw [hfb] at hl
            exact Option.noConfusion hl
          | some w =>
            rw [hfb] at hl
            exact hl
        exact hcompat b' (List.mem_cons_of_mem _ hb') b (List.mem_cons_self _ _)
          k r' r hkr' (lookup_mem hl')
    · intro b1 hb1 b2 hb2 k r r' ha hb
      exact hcompat b1 (List.mem_cons_of_mem _ hb1) b2 (List.mem_cons_of_mem _ hb2)
        k r r' ha hb

theorem classFold_nodupkeys (f : Bundle → List (String × String)) (bs : List Bundle) :
    ∀ acc m, classFold f acc bs = .ok m →
      (acc.map Prod.fst).Nodup → (m.map Prod.fst).Nodup := by
  induction bs with
  | nil =>
    intro acc m h nd
    cases h
    exact nd
  | cons b t ih =>
    intro acc m h nd
    cases hm : mergeDepsClass acc (f b) with
    | error e =>
      rw [classFold_cons_err t hm] at h
      exact Except.noConfusion h
    | ok m1 =>
      rw [classFold_cons_ok t hm] at h
      exact ih m1 m h (mergeDepsClass_nodupkeys (f b) acc m1 hm nd)

theorem classFold_isOk_iff (f : Bundle → List (String × String)) (bs : List Bundle) :
    (classFold f [] bs).isOk = true ↔ DepCompat f bs := by
  constructor
  · intro h
    obtain ⟨m, hm⟩ := except_isOk_exists h
    intro b hb b' hb' k r r' ha hb2
    have h1 := classFold_mem_lookup f bs [] m hm b hb k r ha
    have h2 := classFold_mem_lookup f bs [] m hm b' hb' k r' hb2
    rw [h1] at h2
    exact Option.some.inj h2
  · intro h
    exact classFold_ok_of f bs [] (by intro k r hl; cases hl) h

theorem head?_eq_of_perm_allEq {l l' : List String} (hp : l.Perm l')
    (hall : ∀ x ∈ l, ∀ y ∈ l, x = y) : l.head? = l'.head? := by
  cases l with
  | nil =>
    have h0 : l' = [] := List.Perm.eq_nil hp.symm
    rw [h0]
  | cons x t =>
    cases l' with
    | nil =>
      have h0 : x :: t = [] := List.Perm.eq_nil hp
      exact List.noConfusion h0
    | cons y t' =>
      have hy : y ∈ x :: t := hp.mem_iff.mpr (List.mem_cons_self _ _)
      simp only [List.head?]
      exact congrArg some (hall x (List.mem_cons_self _ _) y hy)

theorem contribs_mem_then {f : Bundle → List (String × String)} {k : String}
    {bs : List Bundle} {r : String} (h : r ∈ contribs f k bs) :
    ∃ b ∈ bs, (k, r) ∈ f b := by
  rw [contribs] at h
  obtain ⟨b, hb, hr⟩ := List.mem_filterMap.mp h
  exact ⟨b, hb, lookup_mem hr⟩

theorem contribs_head_eq_of_perm {f : Bundle → List (String × String)} {k : String}
    {bs bs' : List Bundle} (hperm : bs'.Perm bs) (hcompat : DepCompat f bs) :
    (contribs f k bs').head? = (contribs f k bs).head? := by
  apply head?_eq_of_perm_allEq
  · exact List.Perm.filterMap _ hperm
  · intro x hx y hy
    obtain ⟨b1, hb1, hx1⟩ := contribs_mem_then hx
    obtain ⟨b2, hb2, hy1⟩ := contribs_mem_then hy
    exact hcompat b1 (hperm.mem_iff.mp hb1) b2 (hperm.mem_iff.mp hb2) k x y hx1 hy1

theorem MValEqv_refl (x : Option MVal) : MValEqv x x := by
  match x with
  | some (.depsMap a) =>
    intro n
    rfl
  | some (.other v) => rfl
  | none => rfl

theorem mergeDepsClass_congr {mA mB cA cB : List (String × String)}
    (hm : ∀ k, mA.lookup k = mB.lookup k) (hc : ∀ k, cA.lookup k = cB.lookup k)
    (ndB : (cB.map Prod.fst).Nodup)
    {m' : List (String × String)} (h : mergeDepsClass mA cA = .ok m') :
    ∃ m'', mergeDepsClass mB cB = .ok m'' ∧ ∀ k, m''.lookup k = m'.lookup k := by
  have h₁B : ∀ k r, (k, r) ∈ cB → ∀ r', mB.lookup k = some r' → r' = r := by
    intro k r hkr r' hl
    have hcb : cB.lookup k = some r := mem_lookup ndB hkr
    have hca : cA.lookup k = some r := by
      rw [hc k]
      exact hcb
    have hstA := mergeDepsClass_mem_lookup cA mA m' h k r (lookup_mem hca)
    have hstA' := mergeDepsClass_stable h
      (show mA.lookup k = some r' by rw [hm k]; exact hl)
    rw [hstA] at hstA'
    exact (Option.some.inj hstA').symm
  have h₂B : ∀ k r r', (k, r) ∈ cB → (k, r') ∈ cB → r = r' := by
    intro k r r' ha hb
    have h1 := mem_lookup ndB ha
    have h2 := mem_lookup ndB hb
    rw [h1] at h2
    exact Option.some.inj h2
  obtain ⟨m'', hm''⟩ := except_isOk_exists (mergeDepsClass_ok_of cB mB h₁B h₂B)
  refine ⟨m'', hm'', ?_⟩
  intro k
  rw [mergeDepsClass_ok_lookup cB mB m'' hm'' k,
    mergeDepsClass_ok_lookup cA mA m' h k, hm k, hc k]

theorem merge_deps_key_congr {p q : Manifest} {key : String}
    {cA cB : List (String × String)}
    (hpq : ∀ k, MValEqv (p.lookup k) (q.lookup k))
    (hc : ∀ k, cA.lookup k = cB.lookup k) (ndB : (cB.map Prod.fst).Nodup)
    {p' : Manifest} (h : merge_deps_key p key cA = .ok p') :
    ∃ q', merge_deps_key q key cB = .ok q'
      ∧ ∀ k, MValEqv (p'.lookup k) (q'.lookup k) := by
  cases hp : p.lookup key with
  | none =>
    have hq : q.lookup key = none := by
      have he := hpq key
      rw [hp] at he
      exact he.symm
    rw [merge_deps_key_of_none cA hp] at h
    cases hmc : mergeDepsClass [] cA with
    | error e =>
      rw [hmc] at h
      exact Except.noConfusion h
    | ok m2 =>
      rw [hmc] at h
      injection h with h'
      subst h'
      obtain ⟨m2'', hm2'', heq⟩ :=
        @mergeDepsClass_congr [] [] cA cB (fun k => rfl) hc ndB m2 hmc
      refine ⟨updateVal (q ++ [(key, .depsMap [])]) key (.depsMap m2''), ?_, ?_⟩
      · rw [merge_deps_key_of_none cB hq, hm2'']
      · intro k
        by_cases hk : k = key
        · subst hk
          rw [updateVal, updateVal,
            lookup_mapUpdate_self _ _ _ (by rw [lookup_append, hp, lookup_singleton_self]; rfl),
            lookup_mapUpdate_self _ _ _ (by rw [lookup_append, hq, lookup_singleton_self]; rfl)]
          exact fun n => (heq n).symm
        · rw [updateVal, updateVal, lookup_mapUpdate_ne _ _ _ _ hk,
            lookup_mapUpdate_ne _ _ _ _ hk, lookup_append, lookup_append,
            lookup_singleton_ne _ hk, Option.or_none, Option.or_none]
          exact hpq k
  | some w =>
    cases w with
    | other v =>
      rw [merge_deps_key_of_other cA hp] at h
      exact Except.noConfusion h
    | depsMap a =>
      have he := hpq key
      rw [hp] at he
      cases hq : q.lookup key with
      | none =>
        rw [hq] at he
        have : some (MVal.depsMap a) = none := he
        exact Option.noConfusion this
      | some w' =>
        cases w' with
        | other v =>
          rw [hq] at he
          have hcontra : some (MVal.depsMap a) = some (MVal.other v) := he
          injection hcontra with hcontra'
          exact MVal.noConfusion hcontra'
        | depsMap b =>
          rw [hq] at he
          have hab : ∀ n, a.lookup n = b.lookup n := he
          rw [merge_deps_key_of_depsMap cA hp] at h
          cases hmc : mergeDepsClass a cA with
          | error e =>
            rw [hmc] at h
            exact Except.noConfusion h
          | ok m2 =>
            rw [hmc] at h
            injection h with h'
            subst h'
            obtain ⟨m2'', hm2'', heq⟩ := mergeDepsClass_congr hab hc ndB hmc
            refine ⟨updateVal q key (.depsMap m2''), ?_, ?_⟩
            · rw [merge_deps_key_of_depsMap cB hq, hm2'']
            · intro k
              by_cases hk : k = key
              · subst hk
                rw [updateVal, updateVal,
                  lookup_mapUpdate_self _ _ _ (by rw [hp]; rfl),
                  lookup_mapUpdate_self _ _ _ (by rw [hq]; rfl)]
                exact fun n => (heq n).symm
              · rw [updateVal, updateVal, lookup_mapUpdate_ne _ _ _ _ hk,
                  lookup_mapUpdate_ne _ _ _ _ hk]
                exact hpq k

theorem merge_deps_of_steps {p : Manifest} {d : Deps} {p1 p2 p3 : Manifest}
    (h1 : merge_deps_key p "dependencies" d.dependencies = .ok p1)
    (h2 : merge_deps_key p1 "devDependencies" d.devDependencies = .ok p2)
    (h3 : merge_deps_key p2 "peerDependencies" d.peerDependencies = .ok p3) :
    merge_deps p d = .ok p3 := by
  rw [merge_deps, h1]
  rw [show ((Except.ok p1 : Except DepErr Manifest) >>= fun p1 => do
    let p2 ← merge_deps_key p1 "devDependencies" d.devDependencies
    merge_deps_key p2 "peerDependencies" d.peerDependencies)
    = (do
      let p2 ← merge_deps_key p1 "devDependencies" d.devDependencies
      merge_deps_key p2 "peerDependencies" d.peerDependencies) from rfl]
  rw [h2]
  rw [show ((Except.ok p2 : Except DepErr Manifest) >>= fun p2 =>
    merge_deps_key p2 "peerDependencies" d.peerDependencies)
    = merge_deps_key p2 "peerDependencies" d.peerDependencies from rfl]
  exact h3

theorem merge_deps_congr {p q : Manifest} {dA dB : Deps}
    (hpq : ∀ k, MValEqv (p.lookup k) (q.lookup k))
    (hc1 : ∀ k, dA.dependencies.lookup k = dB.dependencies.lookup k)
    (hc2 : ∀ k, dA.devDependencies.lookup k = dB.devDependencies.lookup k)
    (hc3 : ∀ k, dA.peerDependencies.lookup k = dB.peerDependencies.lookup k)
    (nd1 : (dB.dependencies.map Prod.fst).Nodup)
    (nd2 : (dB.devDependencies.map Prod.fst).Nodup)
    (nd3 : (dB.peerDependencies.map Prod.fst).Nodup)
    {p' : Manifest} (h : merge_deps p dA = .ok p') :
    ∃ q', merge_deps q dB = .ok q'
      ∧ ∀ k, MValEqv (p'.lookup k) (q'.lookup k) := by
  obtain ⟨p1, p2, h1, h2, h3⟩ := merge_deps_ok_then h
  obtain ⟨q1, hq1, he1⟩ := merge_deps_key_congr hpq hc1 nd1 h1
  obtain ⟨q2, hq2, he2⟩ := merge_deps_key_congr he1 hc2 nd2 h2
  obtain ⟨q3, hq3, he3⟩ := merge_deps_key_congr he2 hc3 nd3 h3
  exact ⟨q3, merge_deps_of_steps hq1 hq2 hq3, he3⟩

theorem NamesDisjoint_symm (f : Bundle → List (String × String)) :
    ∀ {b b' : Bundle}, NamesDisjoint f b b' → NamesDisjoint f b' b :=
  fun h n hn hnb => h n hnb hn

theorem keys_flatMap_mem (f : Bundle → List (String × String)) (bs : List Bundle)
    (n : String) :
    n ∈ (bs.flatMap f).map Prod.fst ↔ ∃ b ∈ bs, n ∈ (f b).map Prod.fst := by
  constructor
  · intro h
    obtain ⟨p, hp, hpn⟩ := List.mem_map.mp h
    obtain ⟨b, hb, hpb⟩ := List.mem_flatMap.mp hp
    exact ⟨b, hb, List.mem_map.mpr ⟨p, hpb, hpn⟩⟩
  · rintro ⟨b, hb, hn⟩
    obtain ⟨p, hp, hpn⟩ := List.mem_map.mp hn
    exact List.mem_map.mpr ⟨p, List.mem_flatMap.mpr ⟨b, hb, hp⟩, hpn⟩

theorem flatMap_keys_nodup (f : Bundle → List (String × String)) (bs : List Bundle)
    (hwf : ∀ b ∈ bs, ((f b).map Prod.fst).Nodup)
    (hpw : bs.Pairwise (NamesDisjoint f)) :
    ((bs.flatMap f).map Prod.fst).Nodup := by
  induction bs with
  | nil => simp
  | cons b t ih =>
    rw [List.flatMap_cons, List.map_append, List.nodup_append]
    obtain ⟨hhead, htail⟩ := List.pairwise_cons.mp hpw
    refine ⟨hwf b (List.mem_cons_self _ _),
      ih (fun b' hb' => hwf b' (List.mem_cons_of_mem _ hb')) htail, ?_⟩
    intro n hn hnt
    obtain ⟨b', hb', hn'⟩ := (keys_flatMap_mem f t n).mp hnt
    exact hhead b' hb' n hn hn'

theorem entry_lookup_perm {bs bs' : List Bundle} (hperm : bs'.Perm bs)
    (hwf : ∀ b ∈ bs, ((Bundle.entry b).map Prod.fst).Nodup)
    {l l' : List (String × String)} (h : entry bs = .ok l) (h' : entry bs' = .ok l') :
    ∀ k, l'.lookup k = l.lookup k := by
  intro k
  rw [entry_ok_val bs l h, entry_ok_val bs' l' h']
  have hpw : bs.Pairwise (NamesDisjoint Bundle.entry) :=
    (entry_isOk_iff bs).mp (except_isOk_of_ok h)
  have hpw' : bs'.Pairwise (NamesDisjoint Bundle.entry) :=
    (entry_isOk_iff bs').mp (except_isOk_of_ok h')
  apply lookup_eq_of_perm (hperm.flatMap_right Bundle.entry)
  exact flatMap_keys_nodup Bundle.entry bs'
    (fun b hb => hwf b (hperm.mem_iff.mp hb)) hpw'

theorem aliases_err_then (bs : List Bundle) (e : DupConflict)
    (h : aliases bs = .error e) :
    (∃ b ∈ bs, e.newBundle = b.path ∧ (e.name, e.newValue) ∈ b.aliases)
      ∧ (∃ b ∈ bs, e.prevBundle = b.path ∧ (e.name, e.prevValue) ∈ b.aliases) := by
  rw [aliases] at h
  cases ho : dupFold Bundle.aliases [] bs with
  | ok acc =>
    rw [ho] at h
    exact Except.noConfusion h
  | error e' =>
    rw [ho] at h
    have h' : (Except.error e' : Except DupConflict (List (String × String))) = .error e := h
    injection h' with he
    obtain ⟨hnew, hprev⟩ := dupFold_err_then Bundle.aliases bs [] e' ho
    rw [he] at hnew hprev
    rcases hprev with hmem | hx
    · cases hmem
    · exact ⟨hnew, hx⟩

theorem aliases_lookup_perm {bs bs' : List Bundle} (hperm : bs'.Perm bs)
    (hwf : ∀ b ∈ bs, ((Bundle.aliases b).map Prod.fst).Nodup)
    {l l' : List (String × String)} (h : aliases bs = .ok l)
    (h' : aliases bs' = .ok l') :
    ∀ k, l'.lookup k = l.lookup k := by
  intro k
  rw [aliases_ok_val bs l h, aliases_ok_val bs' l' h']
  have hpw' : bs'.Pairwise (NamesDisjoint Bundle.aliases) :=
    (aliases_isOk_iff bs').mp (except_isOk_of_ok h')
  apply lookup_eq_of_perm (hperm.flatMap_right Bundle.aliases)
  exact flatMap_keys_nodup Bundle.aliases bs'
    (fun b hb => hwf b (hperm.mem_iff.mp hb)) hpw'

/-! Decomposition of the whole build into its five components. -/

theorem buildDescriptor_ok_then {isFile : PPath → Bool} {config_path : PPath}
    {paths : List PPath} {source : Manifest} {bs : List Bundle} {D : Descriptor}
    (h : buildDescriptor isFile config_path paths source bs = .ok D) :
    entry bs = .ok D.entries ∧ aliases bs = .ok D.aliases
      ∧ copy isFile config_path paths bs = .ok D.copy
      ∧ dependencies bs = .ok D.deps
      ∧ package_json source bs = .ok D.package_json := by
  rw [buildDescriptor] at h
  cases he : entry bs with
  | error e =>
    rw [he] at h
    exact Except.noConfusion h
  | ok ev =>
    rw [he] at h
    cases ha : aliases bs with
    | error e =>
      rw [ha] at h
      exact Except.noConfusion h
    | ok av =>
      rw [ha] at h
      cases hc : copy isFile config_path paths bs with
      | error e =>
        rw [hc] at h
        exact Except.noConfusion h
      | ok cv =>
        rw [hc] at h
        cases hd : dependencies bs with
        | error e =>
          rw [hd] at h
          exact Except.noConfusion h
        | ok dv =>
          rw [hd] at h
          cases hp : package_json source bs with
          | error e =>
            rw [hp] at h
            exact Except.noConfusion h
          | ok pv =>
            rw [hp] at h
            have h' : (Except.ok (⟨ev, av, cv, dv, pv⟩ : Descriptor) :
                Except BuildErr Descriptor) = .ok D := h
            injection h' with hD
            subst hD
            exact ⟨rfl, rfl, rfl, rfl, rfl⟩

theorem buildDescriptor_ok_of {isFile : PPath → Bool} {config_path : PPath}
    {paths : List PPath} {source : Manifest} {bs : List Bundle}
    {ev av : List (String × String)} {cv : List CopyInstr} {dv pv : Manifest}
    (he : entry bs = .ok ev) (ha : aliases bs = .ok av)
    (hc : copy isFile config_path paths bs = .ok cv)
    (hd : dependencies bs = .ok dv) (hp : package_json source bs = .ok pv) :
    buildDescriptor isFile config_path paths source bs = .ok ⟨ev, av, cv, dv, pv⟩ := by
  rw [buildDescriptor, he, ha, hc, hd, hp]
  rfl

theorem buildDescriptor_isOk_iff (isFile : PPath → Bool) (config_path : PPath)
    (paths : List PPath) (source : Manifest) (bs : List Bundle) :
    (buildDescriptor isFile config_path paths source bs).isOk = true
      ↔ (entry bs).isOk = true ∧ (aliases bs).isOk = true
        ∧ (copy isFile config_path paths bs).isOk = true
        ∧ (dependencies bs).isOk = true
        ∧ (package_json source bs).isOk = true := by
  constructor
  · intro h
    obtain ⟨D, hD⟩ := except_isOk_exists h
    obtain ⟨h1, h2, h3, h4, h5⟩ := buildDescriptor_ok_then hD
    exact ⟨except_isOk_of_ok h1, except_isOk_of_ok h2, except_isOk_of_ok h3,
      except_isOk_of_ok h4, except_isOk_of_ok h5⟩
  · rintro ⟨h1, h2, h3, h4, h5⟩
    obtain ⟨ev, he⟩ := except_isOk_exists h1
    obtain ⟨av, ha⟩ := except_isOk_exists h2
    obtain ⟨cv, hc⟩ := except_isOk_exists h3
    obtain ⟨dv, hd⟩ := except_isOk_exists h4
    obtain ⟨pv, hp⟩ := except_isOk_exists h5
    exact except_isOk_of_ok (buildDescriptor_ok_of he ha hc hd hp)

theorem package_json_of_steps {source : Manifest} {bs : List Bundle} {d p : Manifest}
    (hd : dependencies bs = .ok d) (hm : merge_deps source (toDeps d) = .ok p) :
    package_json source bs = .ok p := by
  rw [package_json, hd]
  rw [show ((Except.ok d : Except DepErr Manifest) >>= fun deps =>
    merge_deps source (toDeps deps)) = merge_deps source (toDeps d) from rfl]
  exact hm

theorem package_json_ok_then {source : Manifest} {bs : List Bundle} {p : Manifest}
    (h : package_json source bs = .ok p) :
    ∃ d, dependencies bs = .ok d ∧ merge_deps source (toDeps d) = .ok p := by
  rw [package_json] at h
  cases hd : dependencies bs with
  | error e =>
    rw [hd] at h
    exact Except.noConfusion h
  | ok d =>
    rw [hd] at h
    rw [show ((Except.ok d : Except DepErr Manifest) >>= fun deps =>
      merge_deps source (toDeps deps)) = merge_deps source (toDeps d) from rfl] at h
    exact ⟨d, rfl, h⟩

theorem toDeps_mkRes (a b c : List (String × String)) :
    toDeps (mkRes a b c) = ⟨a, b, c⟩ :=
  rfl

theorem MValEqv_symm : ∀ {x y : Option MVal}, MValEqv x y → MValEqv y x := by
  intro x y h
  match x, y with
  | some (.depsMap a), some (.depsMap b) => exact fun n => (h n).symm
  | some (.depsMap a), some (.other v) => exact h.symm
  | some (.depsMap a), none => exact h.symm
  | some (.other v), some (.depsMap b) => exact h.symm
  | some (.other v), some (.other w) => exact h.symm
  | some (.other v), none => exact h.symm
  | none, some (.depsMap b) => exact h.symm
  | none, some (.other w) => exact h.symm
  | none, none => exact h.symm

theorem mkRes_lookup_dep (a b c : List (String × String)) :
    (mkRes a b c).lookup "dependencies" = some (.depsMap a) :=
  rfl

theorem mkRes_lookup_dev (a b c : List (String × String)) :
    (mkRes a b c).lookup "devDependencies" = some (.depsMap b) :=
  rfl

theorem mkRes_lookup_peer (a b c : List (String × String)) :
    (mkRes a b c).lookup "peerDependencies" = some (.depsMap c) :=
  rfl

theorem mkRes_lookup_ne (a b c : List (String × String)) {k : String}
    (h1 : k ≠ "dependencies") (h2 : k ≠ "devDependencies")
    (h3 : k ≠ "peerDependencies") : (mkRes a b c).lookup k = none := by
  simp only [mkRes]
  rw [lookup_cons_ne _ _ h1, lookup_cons_ne _ _ h2, lookup_cons_ne _ _ h3]
  rfl

theorem classFold_nil_lookup {f : Bundle → List (String × String)} {bs : List Bundle}
    {m : List (String × String)} (h : classFold f [] bs = .ok m) (k : String) :
    m.lookup k = (contribs f k bs).head? := by
  rw [classFold_ok_lookup f bs [] m h k]
  rfl

theorem mkRes_Eqv {m1 m2 m3 n1 n2 n3 : List (String × String)}
    (h1 : ∀ k, m1.lookup k = n1.lookup k) (h2 : ∀ k, m2.lookup k = n2.lookup k)
    (h3 : ∀ k, m3.lookup k = n3.lookup k) :
    ManifestEqv (mkRes m1 m2 m3) (mkRes n1 n2 n3) := by
  intro k
  by_cases hk1 : k = "dependencies"
  · subst hk1
    rw [mkRes_lookup_dep, mkRes_lookup_dep]
    exact h1
  · by_cases hk2 : k = "devDependencies"
    · subst hk2
      rw [mkRes_lookup_dev, mkRes_lookup_dev]
      exact h2
    · by_cases hk3 : k = "peerDependencies"
      · subst hk3
        rw [mkRes_lookup_peer, mkRes_lookup_peer]
        exact h3
      · rw [mkRes_lookup_ne _ _ _ hk1 hk2 hk3, mkRes_lookup_ne _ _ _ hk1 hk2 hk3]
        rfl

theorem DepCompat_perm {f : Bundle → List (String × String)} {bs bs' : List Bundle}
    (hperm : bs'.Perm bs) (h : DepCompat f bs) : DepCompat f bs' :=
  fun b hb b' hb' => h b (hperm.mem_iff.mp hb) b' (hperm.mem_iff.mp hb')

theorem pairwise_names_perm {f : Bundle → List (String × String)} {bs bs' : List Bundle}
    (hperm : bs'.Perm bs) (h : bs.Pairwise (NamesDisjoint f)) :
    bs'.Pairwise (NamesDisjoint f) :=
  (hperm.pairwise_iff (fun {_ _} hbb => NamesDisjoint_symm f hbb)).mpr h

theorem build_ok_transfer (isFile : PPath → Bool) (config_path : PPath)
    (paths : List PPath) (source : Manifest) {bs bs' : List Bundle}
    (hperm : bs'.Perm bs)
    (h : (buildDescriptor isFile config_path paths source bs).isOk = true) :
    (buildDescriptor isFile config_path paths source bs').isOk = true := by
  rw [buildDescriptor_isOk_iff] at h ⊢
  obtain ⟨h1, h2, h3, h4, h5⟩ := h
  refine ⟨?_, ?_, ?_, ?_, ?_⟩
  · rw [entry_isOk_iff] at h1 ⊢
    exact pairwise_names_perm hperm h1
  · rw [aliases_isOk_iff] at h2 ⊢
    exact pairwise_names_perm hperm h2
  · rw [copy_isOk_iff] at h3 ⊢
    exact fun b hb c hc => h3 b (hperm.mem_iff.mp hb) c hc
  · obtain ⟨d, hd⟩ := except_isOk_exists h4
    obtain ⟨m1, m2, m3, hdm, hc1, hc2, hc3⟩ := dependencies_ok_then hd
    have comp1 := (classFold_isOk_iff _ bs).mp (except_isOk_of_ok hc1)
    have comp2 := (classFold_isOk_iff _ bs).mp (except_isOk_of_ok hc2)
    have comp3 := (classFold_isOk_iff _ bs).mp (except_isOk_of_ok hc3)
    obtain ⟨m1', hm1'⟩ := except_isOk_exists
      ((classFold_isOk_iff _ bs').mpr (DepCompat_perm hperm comp1))
    obtain ⟨m2', hm2'⟩ := except_isOk_exists
      ((classFold_isOk_iff _ bs').mpr (DepCompat_perm hperm comp2))
    obtain ⟨m3', hm3'⟩ := except_isOk_exists
      ((classFold_isOk_iff _ bs').mpr (DepCompat_perm hperm comp3))
    exact except_isOk_of_ok (dependencies_ok_of hm1' hm2' hm3')
  · obtain ⟨p, hpj⟩ := except_isOk_exists h5
    obtain ⟨d, hd, hm⟩ := package_json_ok_then hpj
    obtain ⟨m1, m2, m3, hdm, hc1, hc2, hc3⟩ := dependencies_ok_then hd
    subst hdm
    have comp1 := (classFold_isOk_iff _ bs).mp (except_isOk_of_ok hc1)
    have comp2 := (classFold_isOk_iff _ bs).mp (except_isOk_of_ok hc2)
    have comp3 := (classFold_isOk_iff _ bs).mp (except_isOk_of_ok hc3)
    obtain ⟨m1', hm1'⟩ := except_isOk_exists
      ((classFold_isOk_iff _ bs').mpr (DepCompat_perm hperm comp1))
    obtain ⟨m2', hm2'⟩ := except_isOk_exists
      ((classFold_isOk_iff _ bs').mpr (DepCompat_perm hperm comp2))
    obtain ⟨m3', hm3'⟩ := except_isOk_exists
      ((classFold_isOk_iff _ bs').mpr (DepCompat_perm hperm comp3))
    have hd' : dependencies bs' = .ok (mkRes m1' m2' m3') :=
      dependencies_ok_of hm1' hm2' hm3'
    have e1 : ∀ k, m1.lookup k = m1'.lookup k := fun k => by
      rw [classFold_nil_lookup hm1' k, classFold_nil_lookup hc1 k]
      exact (contribs_head_eq_of_perm hperm comp1).symm
    have e2 : ∀ k, m2.lookup k = m2'.lookup k := fun k => by
      rw [classFold_nil_lookup hm2' k, classFold_nil_lookup hc2 k]
      exact (contribs_head_eq_of_perm hperm comp2).symm
    have e3 : ∀ k, m3.lookup k = m3'.lookup k := fun k => by
      rw [classFold_nil_lookup hm3' k, classFold_nil_lookup hc3 k]
      exact (contribs_head_eq_of_perm hperm comp3).symm
    have nd1 : (m1'.map Prod.fst).Nodup :=
      classFold_nodupkeys _ bs' [] m1' hm1' (by simp)
    have nd2 : (m2'.map Prod.fst).Nodup :=
      classFold_nodupkeys _ bs' [] m2' hm2' (by simp)
    have nd3 : (m3'.map Prod.fst).Nodup :=
      classFold_nodupkeys _ bs' [] m3' hm3' (by simp)
    rw [toDeps_mkRes] at hm
    obtain ⟨q', hq', _⟩ := @merge_deps_congr source source ⟨m1, m2, m3⟩ ⟨m1', m2', m3'⟩
      (fun k => MValEqv_refl _) e1 e2 e3 nd1 nd2 nd3 p hm
    exact except_isOk_of_ok (package_json_of_steps hd'
      (by rw [toDeps_mkRes]; exact hq'))

/-- C2 (amended): permuting a bundle list whose contributions are pairwise
non-conflicting (expressed as: the build succeeds) yields a merged descriptor
with an equal entry map, equal alias map, equal dependency manifest and equal
package manifest under Python dictionary equality, and a validated copy list
holding the same instructions reordered along with the bundles (the copy list
is order-sensitive, so the descriptors are not literally identical — see the
counterexample); permuting a list on which the build raises still raises. -/
theorem c2_order_invariance (isFile : PPath → Bool) (config_path : PPath)
    (paths : List PPath) (source : Manifest) (bs bs' : List Bundle)
    (hperm : bs'.Perm bs) (hwf : BundleWF bs) :
    (∀ D, buildDescriptor isFile config_path paths source bs = .ok D →
      ∃ D', buildDescriptor isFile config_path paths source bs' = .ok D'
        ∧ (∀ k, D'.entries.lookup k = D.entries.lookup k)
        ∧ (∀ k, D'.aliases.lookup k = D.aliases.lookup k)
        ∧ D'.copy.Perm D.copy
        ∧ ManifestEqv D'.deps D.deps
        ∧ ManifestEqv D'.package_json D.package_json)
    ∧ (∀ e, buildDescriptor isFile config_path paths source bs = .error e →
        ∃ e', buildDescriptor isFile config_path paths source bs' = .error e') := by
  constructor
  · intro D hD
    obtain ⟨he, ha, hc, hd, hp⟩ := buildDescriptor_ok_then hD
    have hpwE : bs.Pairwise (NamesDisjoint Bundle.entry) :=
      (entry_isOk_iff bs).mp (except_isOk_of_ok he)
    obtain ⟨ev', he'⟩ := except_isOk_exists
      ((entry_isOk_iff bs').mpr (pairwise_names_perm hperm hpwE))
    have heqE : ∀ k, ev'.lookup k = D.entries.lookup k :=
      entry_lookup_perm hperm (fun b hb => (hwf b hb).1) he he'
    have hpwA : bs.Pairwise (NamesDisjoint Bundle.aliases) :=
      (aliases_isOk_iff bs).mp (except_isOk_of_ok ha)
    obtain ⟨av', ha'⟩ := except_isOk_exists
      ((aliases_isOk_iff bs').mpr (pairwise_names_perm hperm hpwA))
    have heqA : ∀ k, av'.lookup k = D.aliases.lookup k :=
      aliases_lookup_perm hperm (fun b hb => (hwf b hb).2) ha ha'
    have hcvalid := (copy_isOk_iff isFile config_path paths bs).mp (except_isOk_of_ok hc)
    obtain ⟨cv', hc'⟩ := except_isOk_exists
      ((copy_isOk_iff isFile config_path paths bs').mpr
        (fun b hb c hcb => hcvalid b (hperm.mem_iff.mp hb) c hcb))
    have hcperm : cv'.Perm D.copy := by
      rw [copy_ok_val _ _ _ bs' cv' hc', copy_ok_val _ _ _ bs D.copy hc]
      exact hperm.flatMap_right Bundle.copy
    obtain ⟨m1, m2, m3, hdm, hc1, hc2, hc3⟩ := dependencies_ok_then hd
    have comp1 := (classFold_isOk_iff _ bs).mp (except_isOk_of_ok hc1)
    have comp2 := (classFold_isOk_iff _ bs).mp (except_isOk_of_ok hc2)
    have comp3 := (classFold_isOk_iff _ bs).mp (except_isOk_of_ok hc3)
    obtain ⟨m1', hm1'⟩ := except_isOk_exists
      ((classFold_isOk_iff _ bs').mpr (DepCompat_perm hperm comp1))
    obtain ⟨m2', hm2'⟩ := except_isOk_exists
      ((classFold_isOk_iff _ bs').mpr (DepCompat_perm hperm comp2))
    obtain ⟨m3', hm3'⟩ := except_isOk_exists
      ((classFold_isOk_iff _ bs').mpr (DepCompat_perm hperm comp3))
    have hd' : dependencies bs' = .ok (mkRes m1' m2' m3') :=
      dependencies_ok_of hm1' hm2' hm3'
    have e1 : ∀ k, m1'.lookup k = m1.lookup k := fun k => by
      rw [classFold_nil_lookup hm1' k, classFold_nil_lookup hc1 k]
      exact contribs_head_eq_of_perm hperm comp1
    have e2 : ∀ k, m2'.lookup k = m2.lookup k := fun k => by
      rw [classFold_nil_lookup hm2' k, classFold_nil_lookup hc2 k]
      exact contribs_head_eq_of_perm hperm comp2
    have e3 : ∀ k, m3'.lookup k = m3.lookup k := fun k => by
      rw [classFold_nil_lookup hm3' k, classFold_nil_lookup hc3 k]
      exact contribs_head_eq_of_perm hperm comp3
    have hdEqv : ManifestEqv (mkRes m1' m2' m3') D.deps := by
      rw [hdm]
      exact mkRes_Eqv e1 e2 e3
    obtain ⟨d2, hd2, hm⟩ := package_json_ok_then hp
    rw [hd] at hd2
    have hd2d : D.deps = d2 := Except.ok.inj hd2
    rw [← hd2d, hdm, toDeps_mkRes] at hm
    have nd1 : (m1'.map Prod.fst).Nodup :=
      classFold_nodupkeys _ bs' [] m1' hm1' (by simp)
    have nd2 : (m2'.map Prod.fst).Nodup :=
      classFold_nodupkeys _ bs' [] m2' hm2' (by simp)
    have nd3 : (m3'.map Prod.fst).Nodup :=
      classFold_nodupkeys _ bs' [] m3' hm3' (by simp)
    obtain ⟨q', hq', hEqv⟩ := @merge_deps_congr source source ⟨m1, m2, m3⟩ ⟨m1', m2', m3'⟩
      (fun k => MValEqv_refl _) (fun k => (e1 k).symm) (fun k => (e2 k).symm)
      (fun k => (e3 k).symm) nd1 nd2 nd3 D.package_json hm
    have hp' : package_json source bs' = .ok q' :=
      package_json_of_steps hd' (by rw [toDeps_mkRes]; exact hq')
    exact ⟨⟨ev', av', cv', mkRes m1' m2' m3', q'⟩,
      buildDescriptor_ok_of he' ha' hc' hd' hp', heqE, heqA, hcperm, hdEqv,
      fun k => MValEqv_symm (hEqv k)⟩
  · intro e hErr
    cases hOk' : (buildDescriptor isFile config_path paths source bs').isOk with
    | false => exact except_isOk_false_exists hOk'
    | true =>
      exfalso
      have hok : (buildDescriptor isFile config_path paths source bs).isOk = true :=
        build_ok_transfer isFile config_path paths source hperm.symm hOk'
      rw [hErr] at hok
      exact Bool.noConfusion hok

/-- C2 witness: two non-conflicting concrete bundles, swapped; the permutation
and well-formedness hypotheses are decided, the build of the original order is
evaluated, and the claim theorem produces the swapped build's descriptor with
equal maps and a permuted copy list. -/
theorem c2_order_invariance_witness :
    ([⟨"/p/b", [("m2", "b.js")], [], [], ⟨[("lodash", "^4.0.0")], [], []⟩⟩,
      ⟨"/p/a", [("m1", "a.js")], [("al1", "x.js")],
        [[("from", ⟨false, ["u"]⟩), ("to", ⟨false, ["v"]⟩)]],
        ⟨[("lodash", "^4.0.0")], [], []⟩⟩] : List Bundle).Perm
      [⟨"/p/a", [("m1", "a.js")], [("al1", "x.js")],
        [[("from", ⟨false, ["u"]⟩), ("to", ⟨false, ["v"]⟩)]],
        ⟨[("lodash", "^4.0.0")], [], []⟩⟩,
       ⟨"/p/b", [("m2", "b.js")], [], [], ⟨[("lodash", "^4.0.0")], [], []⟩⟩]
    ∧ BundleWF
      [⟨"/p/a", [("m1", "a.js")], [("al1", "x.js")],
        [[("from", ⟨false, ["u"]⟩), ("to", ⟨false, ["v"]⟩)]],
        ⟨[("lodash", "^4.0.0")], [], []⟩⟩,
       ⟨"/p/b", [("m2", "b.js")], [], [], ⟨[("lodash", "^4.0.0")], [], []⟩⟩]
    ∧ buildDescriptor (fun _ => false) ⟨true, ["p"]⟩ [] []
      [⟨"/p/a", [("m1", "a.js")], [("al1", "x.js")],
        [[("from", ⟨false, ["u"]⟩), ("to", ⟨false, ["v"]⟩)]],
        ⟨[("lodash", "^4.0.0")], [], []⟩⟩,
       ⟨"/p/b", [("m2", "b.js")], [], [], ⟨[("lodash", "^4.0.0")], [], []⟩⟩]
      = .ok ⟨[("m1", "a.js"), ("m2", "b.js")], [("al1", "x.js")],
          [[("from", ⟨false, ["u"]⟩), ("to", ⟨false, ["v"]⟩)]],
          mkRes [("lodash", "^4.0.0")] [] [],
          [("dependencies", .depsMap [("lodash", "^4.0.0")]),
           ("devDependencies", .depsMap []), ("peerDependencies", .depsMap [])]⟩
    ∧ (∃ D', buildDescriptor (fun _ => false) ⟨true, ["p"]⟩ [] []
        [⟨"/p/b", [("m2", "b.js")], [], [], ⟨[("lodash", "^4.0.0")], [], []⟩⟩,
         ⟨"/p/a", [("m1", "a.js")], [("al1", "x.js")],
           [[("from", ⟨false, ["u"]⟩), ("to", ⟨false, ["v"]⟩)]],
           ⟨[("lodash", "^4.0.0")], [], []⟩⟩] = .ok D'
      ∧ (∀ k, D'.entries.lookup k
          = (⟨[("m1", "a.js"), ("m2", "b.js")], [("al1", "x.js")],
              [[("from", ⟨false, ["u"]⟩), ("to", ⟨false, ["v"]⟩)]],
              mkRes [("lodash", "^4.0.0")] [] [],
              [("dependencies", .depsMap [("lodash", "^4.0.0")]),
               ("devDependencies", .depsMap []),
               ("peerDependencies", .depsMap [])]⟩ : Descriptor).entries.lookup k)
      ∧ (∀ k, D'.aliases.lookup k
          = (⟨[("m1", "a.js"), ("m2", "b.js")], [("al1", "x.js")],
              [[("from", ⟨false, ["u"]⟩), ("to", ⟨false, ["v"]⟩)]],
              mkRes [("lodash", "^4.0.0")] [] [],
              [("dependencies", .depsMap [("lodash", "^4.0.0")]),
               ("devDependencies", .depsMap []),
               ("peerDependencies", .depsMap [])]⟩ : Descriptor).aliases.lookup k)
      ∧ D'.copy.Perm (⟨[("m1", "a.js"), ("m2", "b.js")], [("al1", "x.js")],
              [[("from", ⟨false, ["u"]⟩), ("to", ⟨false, ["v"]⟩)]],
              mkRes [("lodash", "^4.0.0")] [] [],
              [("dependencies", .depsMap [("lodash", "^4.0.0")]),
               ("devDependencies", .depsMap []),
               ("peerDependencies", .depsMap [])]⟩ : Descriptor).copy
      ∧ ManifestEqv D'.deps (⟨[("m1", "a.js"), ("m2", "b.js")], [("al1", "x.js")],
              [[("from", ⟨false, ["u"]⟩), ("to", ⟨false, ["v"]⟩)]],
              mkRes [("lodash", "^4.0.0")] [] [],
              [("dependencies", .depsMap [("lodash", "^4.0.0")]),
               ("devDependencies", .depsMap []),
               ("peerDependencies", .depsMap [])]⟩ : Descriptor).deps
      ∧ ManifestEqv D'.package_json
          (⟨[("m1", "a.js"), ("m2", "b.js")], [("al1", "x.js")],
              [[("from", ⟨false, ["u"]⟩), ("to", ⟨false, ["v"]⟩)]],
              mkRes [("lodash", "^4.0.0")] [] [],
              [("dependencies", .depsMap [("lodash", "^4.0.0")]),
               ("devDependencies", .depsMap []),
               ("peerDependencies", .depsMap [])]⟩ : Descriptor).package_json) :=
  by
  refine ⟨by decide, ?_, rfl, ?_⟩
  · intro b hb
    rcases List.mem_cons.mp hb with rfl | hb
    · exact ⟨by decide, by decide⟩
    rcases List.mem_cons.mp hb with rfl | hb
    · exact ⟨by decide, by decide⟩
    cases hb
  · refine (c2_order_invariance (fun _ => false) ⟨true, ["p"]⟩ [] []
      [⟨"/p/a", [("m1", "a.js")], [("al1", "x.js")],
        [[("from", ⟨false, ["u"]⟩), ("to", ⟨false, ["v"]⟩)]],
        ⟨[("lodash", "^4.0.0")], [], []⟩⟩,
       ⟨"/p/b", [("m2", "b.js")], [], [], ⟨[("lodash", "^4.0.0")], [], []⟩⟩]
      [⟨"/p/b", [("m2", "b.js")], [], [], ⟨[("lodash", "^4.0.0")], [], []⟩⟩,
       ⟨"/p/a", [("m1", "a.js")], [("al1", "x.js")],
        [[("from", ⟨false, ["u"]⟩), ("to", ⟨false, ["v"]⟩)]],
        ⟨[("lodash", "^4.0.0")], [], []⟩⟩]
      (by decide) ?_).1 _ rfl
    intro b hb
    rcases List.mem_cons.mp hb with rfl | hb
    · exact ⟨by decide, by decide⟩
    rcases List.mem_cons.mp hb with rfl | hb
    · exact ⟨by decide, by decide⟩
    cases hb

end PyWebpack
